import Mathlib

/-!
# Formal model of the wezterm terminal-emulation engine

This file shallowly embeds the parts of the wezterm repository that the
verified properties speak about:

* the OSC (Operating System Command) parser of
  src/termwiz/src/escape/osc.rs (selection / OSC 52 handling, the code
  registry, the fallback to the Unspecified variant);
* the escape-sequence Parser front end of
  src/termwiz/src/escape/parser/mod.rs (APC handling, C0/C1 dispatch);
* the Surface / change-log engine of src/termwiz/src/surface/mod.rs
  (cursor clamping, resize, get_changes, flush_changes_older_than,
  diffing and replaying of change streams);
* the terminal state machine fragments of
  src/term/src/terminalstate/performer.rs (backspace handling, the Kitty
  keyboard stack, full reset).

Rust machine integers are embedded as Nat (the quantities involved are
usizes that the source only ever adds and saturating-subtracts) or Int
where the source uses i64.  Fallible parsing returns Option.  Code of the
repository that is not present under src/ (the Line/Cell storage, the
vtparse byte state machine, TerminalState helpers) is modelled from the
spec; each such definition carries a doc comment saying so.
-/

namespace WezSpec

/-! ## Bytes, UTF-8 and base64

Rust byte slices are embedded as lists of Nat (each < 256 where it
matters).  Rust Strings are embedded as their byte content.
-/

/-- A Rust byte. -/
abbrev Byte := Nat

/-- Is this byte an ASCII digit?  Mirrors char::is_ascii_digit. -/
def isAsciiDigit (b : Byte) : Bool :=
  48 ≤ b && b ≤ 57

/-- UTF-8 validity of a byte sequence (RFC 3629 ranges).  Models the
check performed by Rust String::from_utf8.  Continuation bytes are
0x80..=0xBF; overlong encodings and surrogates are rejected. -/
def utf8Valid : List Byte → Bool
  | [] => true
  | b :: rest =>
    if b < 0x80 then utf8Valid rest
    else if 0xc2 ≤ b && b ≤ 0xdf then
      match rest with
      | c :: rest2 => (0x80 ≤ c && c ≤ 0xbf) && utf8Valid rest2
      | [] => false
    else if b = 0xe0 then
      match rest with
      | c :: d :: rest2 =>
        (0xa0 ≤ c && c ≤ 0xbf) && (0x80 ≤ d && d ≤ 0xbf) && utf8Valid rest2
      | _ => false
    else if 0xe1 ≤ b && b ≤ 0xec then
      match rest with
      | c :: d :: rest2 =>
        (0x80 ≤ c && c ≤ 0xbf) && (0x80 ≤ d && d ≤ 0xbf) && utf8Valid rest2
      | _ => false
    else if b = 0xed then
      match rest with
      | c :: d :: rest2 =>
        (0x80 ≤ c && c ≤ 0x9f) && (0x80 ≤ d && d ≤ 0xbf) && utf8Valid rest2
      | _ => false
    else if 0xee ≤ b && b ≤ 0xef then
      match rest with
      | c :: d :: rest2 =>
        (0x80 ≤ c && c ≤ 0xbf) && (0x80 ≤ d && d ≤ 0xbf) && utf8Valid rest2
      | _ => false
    else if b = 0xf0 then
      match rest with
      | c :: d :: e :: rest2 =>
        (0x90 ≤ c && c ≤ 0xbf) && (0x80 ≤ d && d ≤ 0xbf) &&
          (0x80 ≤ e && e ≤ 0xbf) && utf8Valid rest2
      | _ => false
    else if 0xf1 ≤ b && b ≤ 0xf3 then
      match rest with
      | c :: d :: e :: rest2 =>
        (0x80 ≤ c && c ≤ 0xbf) && (0x80 ≤ d && d ≤ 0xbf) &&
          (0x80 ≤ e && e ≤ 0xbf) && utf8Valid rest2
      | _ => false
    else if b = 0xf4 then
      match rest with
      | c :: d :: e :: rest2 =>
        (0x80 ≤ c && c ≤ 0x8f) && (0x80 ≤ d && d ≤ 0xbf) &&
          (0x80 ≤ e && e ≤ 0xbf) && utf8Valid rest2
      | _ => false
    else false

/-- Value of one character of the standard base64 alphabet
(A-Z a-z 0-9 + /), as used by base64::alphabet::STANDARD in
src/termwiz/src/escape/osc.rs (base64_decode). -/
def base64Val (b : Byte) : Option Nat :=
  if 65 ≤ b && b ≤ 90 then some (b - 65)
  else if 97 ≤ b && b ≤ 122 then some (b - 97 + 26)
  else if 48 ≤ b && b ≤ 57 then some (b - 48 + 52)
  else if b = 43 then some 62
  else if b = 47 then some 63
  else none

/-- Decode a base64 quantum of 4 symbols (the last one or two possibly
the padding byte 61, i.e. the = character) into 1..3 output bytes.
The engine in the source is configured with decode_allow_trailing_bits,
so discarded low bits of the final symbol are not checked. -/
def base64Quantum (a b c d : Byte) : Option (List Byte) := do
  let va ← base64Val a
  let vb ← base64Val b
  if c = 61 && d = 61 then
    pure [va * 4 + vb / 16]
  else do
    let vc ← base64Val c
    if d = 61 then
      pure [va * 4 + vb / 16, (vb % 16) * 16 + vc / 4]
    else do
      let vd ← base64Val d
      pure [va * 4 + vb / 16, (vb % 16) * 16 + vc / 4, (vc % 4) * 64 + vd]

/-- base64 decoding of a full input, 4 symbols at a time.  Mirrors
base64_decode in src/termwiz/src/escape/osc.rs: the standard alphabet
with canonical padding, trailing bits not validated. -/
def base64Decode : List Byte → Option (List Byte)
  | [] => some []
  | a :: b :: c :: d :: rest => do
    let chunk ← base64Quantum a b c d
    if rest.isEmpty then
      pure chunk
    else if c = 61 || d = 61 then
      none
    else do
      let more ← base64Decode rest
      pure (chunk ++ more)
  | _ => none

/-! ## OSC: Operating System Commands (src/termwiz/src/escape/osc.rs) -/

/-- A non-empty all-digit decimal number. -/
def parseDigits : List Byte → Option Nat
  | [] => none
  | bs =>
    if bs.all isAsciiDigit then
      some (bs.foldl (fun acc b => acc * 10 + (b - 48)) 0)
    else none

/-- str::parse::<u8>() over the raw bytes of the string: an optional
leading +, one or more ASCII digits, value at most 255. -/
def parseU8 (bs : List Byte) : Option Nat :=
  let digits := match bs with
    | 43 :: rest => rest
    | _ => bs
  match parseDigits digits with
  | some v => if v ≤ 255 then some v else none
  | none => none

/-- str::parse::<i32>() over the raw bytes of the string (optional
sign, digits, i32 bounds).  Used by the FinalTermSemanticPrompt
command-status parse. -/
def parseI32 (bs : List Byte) : Option Int :=
  match bs with
  | 45 :: rest =>
    match parseDigits rest with
    | some v => if v ≤ 2147483648 then some (-(v : Int)) else none
    | none => none
  | 43 :: rest =>
    match parseDigits rest with
    | some v => if v ≤ 2147483647 then some (v : Int) else none
    | none => none
  | _ =>
    match parseDigits bs with
    | some v => if v ≤ 2147483647 then some (v : Int) else none
    | none => none

/-- The selection bitmask (bitflags Selection in osc.rs). -/
def Selection.CLIPBOARD : Nat := 2
def Selection.PRIMARY : Nat := 4
def Selection.SELECT : Nat := 8
def Selection.CUT0 : Nat := 16
def Selection.CUT1 : Nat := 32
def Selection.CUT2 : Nat := 64
def Selection.CUT3 : Nat := 128
def Selection.CUT4 : Nat := 256
def Selection.CUT5 : Nat := 512
def Selection.CUT6 : Nat := 1024
def Selection.CUT7 : Nat := 2048
def Selection.CUT8 : Nat := 4096
def Selection.CUT9 : Nat := 8192

/-- One step of Selection::try_parse: the bit for one selection-class
character, from the fixed alphabet c p s 0 1 2 3 4 5 6 7 8 9. -/
def Selection.charBit (b : Byte) : Option Nat :=
  if b = 99 then some Selection.CLIPBOARD
  else if b = 112 then some Selection.PRIMARY
  else if b = 115 then some Selection.SELECT
  else if b = 48 then some Selection.CUT0
  else if b = 49 then some Selection.CUT1
  else if b = 50 then some Selection.CUT2
  else if b = 51 then some Selection.CUT3
  else if b = 52 then some Selection.CUT4
  else if b = 53 then some Selection.CUT5
  else if b = 54 then some Selection.CUT6
  else if b = 55 then some Selection.CUT7
  else if b = 56 then some Selection.CUT8
  else if b = 57 then some Selection.CUT9
  else none

/-- Selection::try_parse: an empty buffer means SELECT | CUT0, otherwise
each character contributes its bit, and any character outside the
alphabet fails the whole parse. -/
def Selection.tryParse (buf : List Byte) : Option Nat :=
  if buf = [] then
    some (Selection.SELECT ||| Selection.CUT0)
  else
    buf.foldl
      (fun acc b =>
        match acc, Selection.charBit b with
        | some s, some bit => some (s ||| bit)
        | _, _ => none)
      (some 0)

/-- ColorOrQuery from osc.rs. Colors (SrgbaTuple) are abstracted to a
Nat value produced by the colour-spec parser. -/
inductive ColorOrQuery where
  | color (c : Nat)
  | query
deriving DecidableEq, Repr

/-- Modelled from the spec: SrgbaTuple::from_str lives in color.rs,
which is not under src/.  The spec only requires that colour specs
either parse to a colour value or fail; we model the common
#RRGGBB hex form and reject everything else. -/
def srgbaFromStr (bs : List Byte) : Option Nat :=
  match bs with
  | 35 :: rest =>
    if rest.length = 6 && rest.all (fun b =>
        isAsciiDigit b || (97 ≤ b && b ≤ 102) || (65 ≤ b && b ≤ 70)) then
      some (rest.foldl (fun acc b =>
        acc * 16 +
          (if b ≤ 57 then b - 48 else if b ≤ 70 then b - 55 else b - 87)) 0)
    else none
  | _ => none

/-- The ten dynamic colour slots (DynamicColorNumber), keyed by their
OSC code 10..19. -/
inductive DynamicColorNumber where
  | textForegroundColor
  | textBackgroundColor
  | textCursorColor
  | mouseForegroundColor
  | mouseBackgroundColor
  | tektronixForegroundColor
  | tektronixBackgroundColor
  | highlightBackgroundColor
  | tektronixCursorColor
  | highlightForegroundColor
deriving DecidableEq, Repr

/-- FromPrimitive::from_u8 for DynamicColorNumber: valid only for
10..=19. -/
def DynamicColorNumber.fromU8 (n : Nat) : Option DynamicColorNumber :=
  if n = 10 then some .textForegroundColor
  else if n = 11 then some .textBackgroundColor
  else if n = 12 then some .textCursorColor
  else if n = 13 then some .mouseForegroundColor
  else if n = 14 then some .mouseBackgroundColor
  else if n = 15 then some .tektronixForegroundColor
  else if n = 16 then some .tektronixBackgroundColor
  else if n = 17 then some .highlightBackgroundColor
  else if n = 18 then some .tektronixCursorColor
  else if n = 19 then some .highlightForegroundColor
  else none

/-- ChangeColorPair from osc.rs. -/
structure ChangeColorPair where
  palette_index : Nat
  color : ColorOrQuery
deriving DecidableEq, Repr

/-- FinalTermClick from osc.rs. -/
inductive FinalTermClick where
  | line
  | multipleLine
  | conservativeVertical
  | smartVertical
deriving DecidableEq, Repr

/-- TryFrom<&str> for FinalTermClick: "line", "m", "v", "w". -/
def FinalTermClick.tryFrom (s : List Byte) : Option FinalTermClick :=
  if s = [108, 105, 110, 101] then some .line
  else if s = [109] then some .multipleLine
  else if s = [118] then some .conservativeVertical
  else if s = [119] then some .smartVertical
  else none

/-- FinalTermPromptKind from osc.rs. -/
inductive FinalTermPromptKind where
  | initial
  | rightSide
  | continuation
  | secondary
deriving DecidableEq, Repr

/-- TryFrom<&str> for FinalTermPromptKind: "i", "r", "c", "s". -/
def FinalTermPromptKind.tryFrom (s : List Byte) : Option FinalTermPromptKind :=
  if s = [105] then some .initial
  else if s = [114] then some .rightSide
  else if s = [99] then some .continuation
  else if s = [115] then some .secondary
  else none

/-- FinalTermSemanticPrompt from osc.rs.  Strings are byte lists. -/
inductive FinalTermSemanticPrompt where
  | freshLine
  | freshLineAndStartPrompt (aid : Option (List Byte)) (cl : Option FinalTermClick)
  | markEndOfCommandWithFreshLine (aid : Option (List Byte)) (cl : Option FinalTermClick)
  | startPrompt (kind : FinalTermPromptKind)
  | markEndOfPromptAndStartOfInputUntilNextMarker
  | markEndOfPromptAndStartOfInputUntilEndOfLine
  | markEndOfInputAndStartOfOutput (aid : Option (List Byte))
  | commandStatus (status : Int) (aid : Option (List Byte))
deriving DecidableEq, Repr

/-- OperatingSystemCommand from osc.rs.  Rust Strings are embedded as
their byte content; from_utf8_lossy replacement of invalid bytes is not
modelled (it affects only how invalid UTF-8 appears inside legacy sun
title strings and rxvt extension payloads). -/
inductive OperatingSystemCommand where
  | setIconNameAndWindowTitle (s : List Byte)
  | setWindowTitle (s : List Byte)
  | setWindowTitleSun (s : List Byte)
  | setIconName (s : List Byte)
  | setIconNameSun (s : List Byte)
  | clearSelection (sel : Nat)
  | querySelection (sel : Nat)
  | setSelection (sel : Nat) (payload : List Byte)
  | systemNotification (s : List Byte)
  | finalTermSemanticPrompt (p : FinalTermSemanticPrompt)
  | changeColorNumber (pairs : List ChangeColorPair)
  | changeDynamicColors (first : DynamicColorNumber) (colors : List ColorOrQuery)
  | resetDynamicColor (color : DynamicColorNumber)
  | currentWorkingDirectory (s : List Byte)
  | resetColors (colors : List Nat)
  | rxvtExtension (params : List (List Byte))
  | unspecified (raw : List (List Byte))
deriving DecidableEq, Repr

/-- OperatingSystemCommandCode: the fixed OSC code registry of osc.rs
(the osc_entries! table). -/
inductive OscCode where
  | setIconNameAndWindowTitle
  | setIconName
  | setWindowTitle
  | setXWindowProperty
  | changeColorNumber
  | changeSpecialColorNumber
  | changeTitleTabColor
  | setCurrentWorkingDirectory
  | systemNotification
  | setTextForegroundColor
  | setTextBackgroundColor
  | setTextCursorColor
  | setMouseForegroundColor
  | setMouseBackgroundColor
  | setTektronixForegroundColor
  | setTektronixBackgroundColor
  | setHighlightBackgroundColor
  | setTektronixCursorColor
  | setHighlightForegroundColor
  | setLogFileName
  | setFont
  | emacsShell
  | manipulateSelectionData
  | resetColors
  | resetSpecialColor
  | resetTextForegroundColor
  | resetTextBackgroundColor
  | resetTextCursorColor
  | resetMouseForegroundColor
  | resetMouseBackgroundColor
  | resetTektronixForegroundColor
  | resetTektronixBackgroundColor
  | resetHighlightColor
  | resetTektronixCursorColor
  | resetHighlightForegroundColor
  | rxvtProprietary
  | finalTermSemanticPrompt
  | setWindowTitleSun
  | setIconNameSun
deriving DecidableEq, Repr

/-- OperatingSystemCommandCode::from_code: lookup of the textual OSC
code in the fixed registry. -/
def OscCode.fromCode (code : List Byte) : Option OscCode :=
  if code = [48] then some .setIconNameAndWindowTitle
  else if code = [49] then some .setIconName
  else if code = [50] then some .setWindowTitle
  else if code = [51] then some .setXWindowProperty
  else if code = [52] then some .changeColorNumber
  else if code = [53] then some .changeSpecialColorNumber
  else if code = [54] then some .changeTitleTabColor
  else if code = [55] then some .setCurrentWorkingDirectory
  else if code = [57] then some .systemNotification
  else if code = [49, 48] then some .setTextForegroundColor
  else if code = [49, 49] then some .setTextBackgroundColor
  else if code = [49, 50] then some .setTextCursorColor
  else if code = [49, 51] then some .setMouseForegroundColor
  else if code = [49, 52] then some .setMouseBackgroundColor
  else if code = [49, 53] then some .setTektronixForegroundColor
  else if code = [49, 54] then some .setTektronixBackgroundColor
  else if code = [49, 55] then some .setHighlightBackgroundColor
  else if code = [49, 56] then some .setTektronixCursorColor
  else if code = [49, 57] then some .setHighlightForegroundColor
  else if code = [52, 54] then some .setLogFileName
  else if code = [53, 48] then some .setFont
  else if code = [53, 49] then some .emacsShell
  else if code = [53, 50] then some .manipulateSelectionData
  else if code = [49, 48, 52] then some .resetColors
  else if code = [49, 48, 53] then some .resetSpecialColor
  else if code = [49, 49, 48] then some .resetTextForegroundColor
  else if code = [49, 49, 49] then some .resetTextBackgroundColor
  else if code = [49, 49, 50] then some .resetTextCursorColor
  else if code = [49, 49, 51] then some .resetMouseForegroundColor
  else if code = [49, 49, 52] then some .resetMouseBackgroundColor
  else if code = [49, 49, 53] then some .resetTektronixForegroundColor
  else if code = [49, 49, 54] then some .resetTektronixBackgroundColor
  else if code = [49, 49, 55] then some .resetHighlightColor
  else if code = [49, 49, 56] then some .resetTektronixCursorColor
  else if code = [49, 49, 57] then some .resetHighlightForegroundColor
  else if code = [55, 55, 55] then some .rxvtProprietary
  else if code = [49, 51, 51] then some .finalTermSemanticPrompt
  else if code = [108] then some .setWindowTitleSun
  else if code = [76] then some .setIconNameSun
  else none

/-- Collect the key=value parameters of a FinalTermSemanticPrompt: a
part with an equals sign contributes a pair (both halves must be valid
UTF-8), an empty part is skipped, anything else fails the parse. -/
def ftspCollectParams : List (List Byte) → Option (List (List Byte × List Byte))
  | [] => some []
  | s :: rest =>
    match s.findIdx? (fun b => b = 61) with
    | some i =>
      let key := s.take i
      let value := s.drop (i + 1)
      if utf8Valid key && utf8Valid value then
        (ftspCollectParams rest).map (fun ps => (key, value) :: ps)
      else none
    | none =>
      if s = [] then ftspCollectParams rest else none

/-- HashMap::get over the collected parameters: the last insertion for
a key wins. -/
def ftspGet (ps : List (List Byte × List Byte)) (key : List Byte) : Option (List Byte) :=
  match ps.reverse.find? (fun p => p.1 = key) with
  | some p => some p.2
  | none => none

/-- FinalTermSemanticPrompt::parse from osc.rs. -/
def FinalTermSemanticPrompt.parse (osc : List (List Byte)) : Option FinalTermSemanticPrompt :=
  if osc.length ≤ 1 then none
  else
    let param := osc.getD 1 []
    if osc.length = 2 && param = [76] then some .freshLine
    else if osc.length = 2 && param = [66] then
      some .markEndOfPromptAndStartOfInputUntilNextMarker
    else if osc.length = 2 && param = [73] then
      some .markEndOfPromptAndStartOfInputUntilEndOfLine
    else
      match ftspCollectParams (osc.drop (if param = [68] then 3 else 2)) with
      | none => none
      | some ps =>
        let aid := ftspGet ps [97, 105, 100]
        if param = [65] then
          match ftspGet ps [99, 108] with
          | some cl => (FinalTermClick.tryFrom cl).map
              (fun c => .freshLineAndStartPrompt aid (some c))
          | none => some (.freshLineAndStartPrompt aid none)
        else if param = [67] then
          some (.markEndOfInputAndStartOfOutput aid)
        else if param = [68] then
          let status : Int :=
            match osc.get? 2 with
            | some s => if utf8Valid s then (parseI32 s).getD 0 else 0
            | none => 0
          some (.commandStatus status aid)
        else if param = [78] then
          match ftspGet ps [99, 108] with
          | some cl => (FinalTermClick.tryFrom cl).map
              (fun c => .markEndOfCommandWithFreshLine aid (some c))
          | none => some (.markEndOfCommandWithFreshLine aid none)
        else if param = [80] then
          match ftspGet ps [107] with
          | some k => (FinalTermPromptKind.tryFrom k).map .startPrompt
          | none => some (.startPrompt .initial)
        else none

/-- OperatingSystemCommand::parse_selection (OSC 52). -/
def parseSelection (osc : List (List Byte)) : Option OperatingSystemCommand :=
  if osc.length = 2 then
    (Selection.tryParse (osc.getD 1 [])).map .clearSelection
  else if osc.length = 3 && osc.getD 2 [] = [63] then
    (Selection.tryParse (osc.getD 1 [])).map .querySelection
  else if osc.length = 3 then
    match Selection.tryParse (osc.getD 1 []) with
    | none => none
    | some sel =>
      match base64Decode (osc.getD 2 []) with
      | none => none
      | some bytes =>
        if utf8Valid bytes then some (.setSelection sel bytes) else none
  else none

/-- The iteration inside OperatingSystemCommand::parse_reset_colors:
empty parameters are skipped, every other parameter must parse as a u8
palette index. -/
def collectResetColors : List (List Byte) → Option (List Nat)
  | [] => some []
  | i :: rest =>
    if i = [] then collectResetColors rest
    else
      match parseU8 i with
      | some v => (collectResetColors rest).map (fun vs => v :: vs)
      | none => none

/-- OperatingSystemCommand::parse_reset_colors (OSC 104). -/
def parseResetColors (osc : List (List Byte)) : Option OperatingSystemCommand :=
  (collectResetColors (osc.drop 1)).map .resetColors

/-- The pair loop inside parse_change_color_number: consume
(index, spec) pairs while both are present; a trailing unpaired
parameter simply stops the loop. -/
def collectColorPairs : List (List Byte) → Option (List ChangeColorPair)
  | index :: spec :: rest =>
    (match parseU8 index with
     | none => none
     | some idx =>
       if utf8Valid spec then
         if spec = [63] then
           (collectColorPairs rest).map (fun ps => ⟨idx, .query⟩ :: ps)
         else
           match srgbaFromStr spec with
           | some c => (collectColorPairs rest).map (fun ps => ⟨idx, .color c⟩ :: ps)
           | none => none
       else none)
  | _ => some []

/-- OperatingSystemCommand::parse_change_color_number (OSC 4). -/
def parseChangeColorNumber (osc : List (List Byte)) : Option OperatingSystemCommand :=
  (collectColorPairs (osc.drop 1)).map .changeColorNumber

/-- OperatingSystemCommand::parse_reset_dynamic_color_number. -/
def parseResetDynamicColorNumber (idx : Nat) : Option OperatingSystemCommand :=
  (DynamicColorNumber.fromU8 idx).map .resetDynamicColor

/-- The colour list of parse_change_dynamic_color_number: a literal ?
is a query, anything else must be valid UTF-8 and parse as a colour. -/
def collectDynamicColors : List (List Byte) → Option (List ColorOrQuery)
  | [] => some []
  | spec :: rest =>
    if spec = [63] then
      (collectDynamicColors rest).map (fun cs => .query :: cs)
    else if utf8Valid spec then
      match srgbaFromStr spec with
      | some c => (collectDynamicColors rest).map (fun cs => .color c :: cs)
      | none => none
    else none

/-- OperatingSystemCommand::parse_change_dynamic_color_number
(OSC 10..19). -/
def parseChangeDynamicColorNumber (idx : Nat) (osc : List (List Byte)) :
    Option OperatingSystemCommand :=
  match DynamicColorNumber.fromU8 idx with
  | none => none
  | some which => (collectDynamicColors (osc.drop 1)).map (.changeDynamicColors which)

/-- The single_string! macro in internal_parse: exactly two parameters,
the second valid UTF-8. -/
def singleString (osc : List (List Byte)) : Option (List Byte) :=
  if osc.length = 2 then
    let s := osc.getD 1 []
    if utf8Valid s then some s else none
  else none

/-- The single_title_string! macro in internal_parse: at least two
parameters, all of them valid UTF-8, joined back together with
semicolons. -/
def singleTitleString (osc : List (List Byte)) : Option (List Byte) :=
  if osc.length < 2 then none
  else if (osc.drop 1).all (fun s => utf8Valid s) then
    some (List.intercalate [59] (osc.drop 1))
  else none

/-- OperatingSystemCommand::internal_parse. -/
def internalParse (osc : List (List Byte)) : Option OperatingSystemCommand :=
  if osc.isEmpty then none
  else
    let p1 := osc.getD 0 []
    if p1.isEmpty then none
    else
      let oscCode :=
        if ¬ isAsciiDigit (p1.getD 0 0) && osc.length = 1 then
          OscCode.fromCode [p1.getD 0 0]
        else
          OscCode.fromCode p1
      match oscCode with
      | none => none
      | some code =>
        match code with
        | .setIconNameAndWindowTitle => (singleTitleString osc).map .setIconNameAndWindowTitle
        | .setWindowTitle => (singleTitleString osc).map .setWindowTitle
        | .setWindowTitleSun => some (.setWindowTitleSun (p1.drop 1))
        | .setIconName => (singleTitleString osc).map .setIconName
        | .setIconNameSun => some (.setIconNameSun (p1.drop 1))
        | .manipulateSelectionData => parseSelection osc
        | .systemNotification => (singleString osc).map .systemNotification
        | .setCurrentWorkingDirectory => (singleString osc).map .currentWorkingDirectory
        | .rxvtProprietary => some (.rxvtExtension (osc.drop 1))
        | .finalTermSemanticPrompt =>
          (FinalTermSemanticPrompt.parse osc).map .finalTermSemanticPrompt
        | .changeColorNumber => parseChangeColorNumber osc
        | .resetColors => parseResetColors osc
        | .resetSpecialColor => parseResetDynamicColorNumber ((parseU8 p1).getD 0 - 100)
        | .resetTextForegroundColor => parseResetDynamicColorNumber ((parseU8 p1).getD 0 - 100)
        | .resetTextBackgroundColor => parseResetDynamicColorNumber ((parseU8 p1).getD 0 - 100)
        | .resetTextCursorColor => parseResetDynamicColorNumber ((parseU8 p1).getD 0 - 100)
        | .resetMouseForegroundColor => parseResetDynamicColorNumber ((parseU8 p1).getD 0 - 100)
        | .resetMouseBackgroundColor => parseResetDynamicColorNumber ((parseU8 p1).getD 0 - 100)
        | .resetTektronixForegroundColor => parseResetDynamicColorNumber ((parseU8 p1).getD 0 - 100)
        | .resetTektronixBackgroundColor => parseResetDynamicColorNumber ((parseU8 p1).getD 0 - 100)
        | .resetHighlightColor => parseResetDynamicColorNumber ((parseU8 p1).getD 0 - 100)
        | .resetTektronixCursorColor => parseResetDynamicColorNumber ((parseU8 p1).getD 0 - 100)
        | .resetHighlightForegroundColor => parseResetDynamicColorNumber ((parseU8 p1).getD 0 - 100)
        | .setTextForegroundColor => parseChangeDynamicColorNumber ((parseU8 p1).getD 0) osc
        | .setTextBackgroundColor => parseChangeDynamicColorNumber ((parseU8 p1).getD 0) osc
        | .setTextCursorColor => parseChangeDynamicColorNumber ((parseU8 p1).getD 0) osc
        | .setMouseForegroundColor => parseChangeDynamicColorNumber ((parseU8 p1).getD 0) osc
        | .setMouseBackgroundColor => parseChangeDynamicColorNumber ((parseU8 p1).getD 0) osc
        | .setTektronixForegroundColor => parseChangeDynamicColorNumber ((parseU8 p1).getD 0) osc
        | .setTektronixBackgroundColor => parseChangeDynamicColorNumber ((parseU8 p1).getD 0) osc
        | .setHighlightBackgroundColor => parseChangeDynamicColorNumber ((parseU8 p1).getD 0) osc
        | .setTektronixCursorColor => parseChangeDynamicColorNumber ((parseU8 p1).getD 0) osc
        | .setHighlightForegroundColor => parseChangeDynamicColorNumber ((parseU8 p1).getD 0) osc
        | _ => none

/-- OperatingSystemCommand::parse: any failure of internal_parse is
surfaced as the Unspecified variant carrying the raw parameter bytes. -/
def oscParse (osc : List (List Byte)) : OperatingSystemCommand :=
  (internalParse osc).getD (.unspecified osc)

/-! ## The escape Parser front end (src/termwiz/src/escape/parser/mod.rs)

The Performer struct implements vtparse::VTActor and turns low-level
state-machine callbacks into Action values handed to the caller.  We
embed each callback as a function from its payload to the list of
Action values it emits.
-/

/-- The subset of termwiz::escape::Action relevant to the verified
claims.  The Action enum itself lives in escape/mod.rs, which is not
under src/; the constructors are modelled from the spec's closed set of
typed operations (print, control code, OSC command, CSI op, escape op,
device control, tcap query). -/
inductive PAction where
  | print (c : Nat)
  | control (code : Byte)
  | osc (cmd : OperatingSystemCommand)
  | csi (raw : List Byte)
  | escape (intermediate : Option Byte) (control : Byte)
  | deviceControlByte (data : Byte)
  | xtGetTcap (names : List (List Byte))
deriving DecidableEq, Repr

/-- Modelled from the spec: the ControlCode enum of termwiz::escape
(escape/mod.rs is not under src/) names every C0 code together with the
ECMA-48 C1 controls 0x84..0x9f; FromPrimitive::from_u8 fails on any
other byte. -/
def controlCodeFromU8 (b : Byte) : Option Byte :=
  if b < 0x20 then some b
  else if 0x84 ≤ b && b ≤ 0x9f then some b
  else none

/-- VTActor::print for the Performer: every printable character is
surfaced as Action::Print. -/
def performerPrint (c : Nat) : List PAction :=
  [.print c]

/-- VTActor::execute_c0_or_c1 for the Performer: a byte with a named
ControlCode is surfaced as Action::Control; any other byte is logged
("impossible C0/C1 control code ... was dropped") and produces no
action. -/
def performerExecuteC0OrC1 (b : Byte) : List PAction :=
  match controlCodeFromU8 b with
  | some code => [.control code]
  | none => []

/-- VTActor::apc_dispatch for the Performer: the APC payload is logged
at trace level ("Ignoring APC data") and produces no action. -/
def performerApcDispatch (_data : List Byte) : List PAction :=
  []

/-- Modelled from the spec: the Performer's osc_dispatch (absent from
the src/ copy of parser/mod.rs) surfaces every complete OSC through
OperatingSystemCommand::parse, so that malformed ones arrive as the
Unspecified variant. -/
def performerOscDispatch (params : List (List Byte)) : List PAction :=
  [.osc (oscParse params)]

/-! ## Cells, graphemes and lines (Screen Buffer / Line Model)

Modelled from the spec: cell.rs and surface/line/mod.rs are not under
src/ (only surface/line/vecstorage.rs and the line tests are).  Per
spec section 3, a Cell is a grapheme cluster plus an attribute set; its
display width is 0, 1 or 2 columns and is a function of the grapheme; a
width-2 cell is always immediately followed in physical storage by a
placeholder occupying the second column, and both must be updated
together.  The visible-cell iteration is translated from VecStorageIter
in src/termwiz/src/surface/line/vecstorage.rs.
-/

/-- The cell attribute set (CellAttributes).  Modelled from the spec:
a bag of boolean rendering flags plus foreground/background colour
references, embedded as three numeric fields. -/
structure CellAttributes where
  flags : Nat
  foreground : Nat
  background : Nat
deriving DecidableEq, Repr

/-- CellAttributes::default(). -/
def CellAttributes.default : CellAttributes := ⟨0, 0, 0⟩

/-- CellAttributes::default().set_background(color), as built by the
clear operations of Surface. -/
def CellAttributes.defaultWithBackground (color : Nat) : CellAttributes := ⟨0, 0, color⟩

/-- Modelled from the spec: AttributeChange (cell.rs, not under src/)
updates a single field of the attribute set. -/
inductive AttributeChange where
  | setFlags (f : Nat)
  | foreground (c : Nat)
  | background (c : Nat)
deriving DecidableEq, Repr

/-- CellAttributes::apply_change. -/
def CellAttributes.applyChange (a : CellAttributes) : AttributeChange → CellAttributes
  | .setFlags f => { a with flags := f }
  | .foreground c => { a with foreground := c }
  | .background c => { a with background := c }

/-- A grapheme cluster, abstracted as a numeric code.  Its display
width (grapheme_column_width) is modelled as the code modulo 3, so that
every legal width 0, 1, 2 is realized and equal graphemes always have
equal widths. -/
abbrev Grapheme := Nat

/-- The display width of a grapheme. -/
def graphemeWidth (g : Grapheme) : Nat := g % 3

/-- The grapheme standing for the space character (width 1). -/
def spaceGrapheme : Grapheme := 1

/-- A cell: one grapheme plus its attributes.  CellRef::same_contents
compares text, width and attributes, which coincides with equality of
this structure. -/
structure Cell where
  g : Grapheme
  attrs : CellAttributes
deriving DecidableEq, Repr

/-- Cell::width(): the display width of the cell's grapheme. -/
def Cell.width (c : Cell) : Nat := graphemeWidth c.g

/-- Cell::blank(): a space with default attributes. -/
def Cell.blank : Cell := ⟨spaceGrapheme, CellAttributes.default⟩

/-- Cell::new(' ', attrs): a space with the given attributes. -/
def Cell.space (attrs : CellAttributes) : Cell := ⟨spaceGrapheme, attrs⟩

/-- The storage footprint of a cell: zero-width graphemes still occupy
one slot (the width().max(1) in the print path and in set_cell). -/
def effW (c : Cell) : Nat := max c.width 1

/-- One physical storage slot of a line: a cell, or the placeholder
occupying the second column of a width-2 cell. -/
inductive Slot where
  | cell (c : Cell)
  | pad
deriving DecidableEq, Repr

/-- A blank (space) slot. -/
def blankSlot : Slot := .cell Cell.blank

/-- The visible-cell iteration, translated from VecStorageIter
(src/termwiz/src/surface/line/vecstorage.rs): yield each cell together
with its physical index, then skip width().saturating_sub(1) following
slots.  Placeholder slots are exactly the skipped ones on well-formed
lines. -/
def visCellsAux : List Slot → Nat → List (Nat × Cell)
  | [], _ => []
  | .pad :: rest, i => visCellsAux rest (i + 1)
  | .cell c :: rest, i =>
    (i, c) :: visCellsAux (rest.drop (c.width - 1)) (i + 1 + (c.width - 1))
termination_by slots => slots.length
decreasing_by
  · simp only [List.length_cons]; omega
  · simp only [List.length_cons]
    have := List.length_drop (c.width - 1) rest
    omega

/-- A line of the screen buffer: fixed-width physical storage plus the
line-attribute bitfield (spec section 3). -/
structure Line where
  slots : List Slot
  bits : Nat
deriving DecidableEq, Repr

/-- Line::with_width: a line of blank cells. -/
def Line.withWidth (w : Nat) : Line := ⟨List.replicate w blankSlot, 0⟩

/-- Line::visible_cells(). -/
def Line.visibleCells (l : Line) : List (Nat × Cell) := visCellsAux l.slots 0

/-- Line::len(): the physical width. -/
def Line.len (l : Line) : Nat := l.slots.length

/-- Replace a trailing placeholder orphaned by truncation with a blank,
so that resize does not corrupt a multi-column grapheme at the new
boundary (spec section 4.4). -/
def fixTail (s : List Slot) : List Slot :=
  match s.getLast? with
  | some .pad => s.dropLast ++ [blankSlot]
  | _ => s

/-- Line::resize: truncate or pad with blank cells to the new width. -/
def Line.resize (l : Line) (w : Nat) : Line :=
  if w ≤ l.slots.length then ⟨fixTail (l.slots.take w), l.bits⟩
  else ⟨l.slots ++ List.replicate (w - l.slots.length) blankSlot, l.bits⟩

/-- Line::set_cell on the physical storage, modelled from the spec:
the write replaces the target cell; a wide cell whose placeholder is
overwritten is resolved to blanks, the new cell's placeholder is
written together with it, and a placeholder orphaned just past the
write is blanked. -/
def setCellSlots (slots : List Slot) (idx : Nat) (c : Cell) : List Slot :=
  let e := effW c
  let s1 :=
    if slots.getD idx blankSlot = Slot.pad then
      (slots.set (idx - 1) blankSlot).set idx blankSlot
    else slots
  let s2 := s1.set idx (.cell c)
  let s3 := if e = 2 then s2.set (idx + 1) .pad else s2
  if s3.getD (idx + e) blankSlot = Slot.pad then s3.set (idx + e) blankSlot
  else s3

/-- Line::set_cell. -/
def Line.setCell (l : Line) (idx : Nat) (c : Cell) : Line :=
  ⟨setCellSlots l.slots idx c, l.bits⟩

/-- Line::fill_range: set_cell for every column of the range. -/
def Line.fillRange (l : Line) (start stop : Nat) (c : Cell) : Line :=
  (List.range' start (stop - start)).foldl (fun acc x => acc.setCell x c) l

/-- Modelled from the spec: the line-attribute setters of Line (not
under src/) record which double-width/double-height mode the line is
in. -/
def Line.setLineBits (l : Line) (bits : Nat) : Line := { l with bits := bits }

/-! ## Surface and the change log (src/termwiz/src/surface/mod.rs) -/

/-- Position from surface/mod.rs. -/
inductive Position where
  | relative (d : Int)
  | absolute (n : Nat)
  | endRelative (n : Nat)
deriving DecidableEq, Repr

/-- CursorVisibility from surface/mod.rs. -/
inductive CursorVisibility where
  | hidden
  | visible
deriving DecidableEq, Repr

/-- CursorShape from surface/mod.rs. -/
inductive CursorShape where
  | defaultShape
  | blinkingBlock
  | steadyBlock
  | blinkingUnderline
  | steadyUnderline
  | blinkingBar
  | steadyBar
deriving DecidableEq, Repr

/-- LineAttribute from surface/change.rs. -/
inductive LineAttribute where
  | doubleHeightTopHalfLine
  | doubleHeightBottomHalfLine
  | doubleWidthLine
  | singleWidthLine
deriving DecidableEq, Repr

/-- One grapheme of a Change::Text payload.  The Graphemes::new
segmentation of the source is abstracted: a string is embedded as its
grapheme sequence, with the "\r\n", "\r" and "\n" graphemes
distinguished because print_text treats them specially. -/
inductive TextG where
  | crlf
  | cr
  | lf
  | glyph (g : Grapheme)
deriving DecidableEq, Repr

/-- Change from surface/change.rs: exactly the variants matched by
Surface::apply_change. -/
inductive Change where
  | attribute (delta : AttributeChange)
  | allAttributes (attrs : CellAttributes)
  | text (gs : List TextG)
  | clearScreen (color : Nat)
  | clearToEndOfLine (color : Nat)
  | clearToEndOfScreen (color : Nat)
  | cursorPosition (x y : Position)
  | cursorColor (color : Nat)
  | cursorShape (shape : CursorShape)
  | cursorVisibility (v : CursorVisibility)
  | title (s : List Byte)
  | scrollRegionUp (firstRow regionSize scrollCount : Nat)
  | scrollRegionDown (firstRow regionSize scrollCount : Nat)
  | lineAttribute (attr : LineAttribute)
deriving DecidableEq, Repr

/-- Change::is_text(). -/
def Change.isText : Change → Bool
  | .text _ => true
  | _ => false

/-- The Surface struct. -/
structure Surface where
  width : Nat
  height : Nat
  lines : List Line
  attributes : CellAttributes
  xpos : Nat
  ypos : Nat
  seqno : Nat
  changes : List Change
  cursorShapeField : Option CursorShape
  cursorVisibilityField : CursorVisibility
  cursorColorField : Nat
  title : List Byte
deriving DecidableEq, Repr

/-- Surface::default(). -/
def Surface.empty : Surface :=
  ⟨0, 0, [], CellAttributes.default, 0, 0, 0, [], none, .visible, 0, []⟩

/-- compute_position_change: apply a Position update, clamped to
0..limit (all subtractions are the saturating Nat ones, exactly as the
source uses saturating_sub/saturating_add). -/
def computePositionChange (current : Nat) (pos : Position) (limit : Nat) : Nat :=
  match pos with
  | .relative delta =>
    if 0 ≤ delta then min (current + delta.toNat) (limit - 1)
    else current - delta.natAbs
  | .absolute a => min a (limit - 1)
  | .endRelative delta => limit - delta

/-- In-place update of one list element (Rust's &mut self.lines[i]). -/
def listModify (l : List α) (i : Nat) (f : α → α) : List α :=
  match l, i with
  | [], _ => []
  | x :: xs, 0 => f x :: xs
  | x :: xs, n + 1 => x :: listModify xs n f

/-- Surface::set_cursor_pos. -/
def Surface.setCursorPos (s : Surface) (x y : Position) : Surface :=
  { s with
    xpos := computePositionChange s.xpos x s.width
    ypos := computePositionChange s.ypos y s.height }

/-- Surface::scroll_screen_up: drop the first line, append a blank
one. -/
def Surface.scrollScreenUp (s : Surface) : Surface :=
  { s with lines := s.lines.drop 1 ++ [Line.withWidth s.width] }

/-- The shared "move down one line or scroll" step of print_text. -/
def Surface.lineFeed (s : Surface) : Surface :=
  let newY := s.ypos + 1
  if s.height ≤ newY then s.scrollScreenUp else { s with ypos := newY }

/-- One grapheme step of Surface::print_text. -/
def Surface.printOne (s : Surface) : TextG → Surface
  | .crlf => ({ s with xpos := 0 }).lineFeed
  | .cr => { s with xpos := 0 }
  | .lf => s.lineFeed
  | .glyph g =>
    let s := if s.width ≤ s.xpos then { s.lineFeed with xpos := 0 } else s
    let cell : Cell := ⟨g, s.attributes⟩
    let w := max cell.width 1
    let s := { s with lines := listModify s.lines s.ypos (fun l => l.setCell s.xpos cell) }
    { s with xpos := s.xpos + w }

/-- Surface::print_text. -/
def Surface.printText (s : Surface) (gs : List TextG) : Surface :=
  gs.foldl Surface.printOne s

/-- Surface::clear_screen. -/
def Surface.clearScreen (s : Surface) (color : Nat) : Surface :=
  let attrs := CellAttributes.defaultWithBackground color
  let cleared := Cell.space attrs
  { s with
    attributes := attrs
    lines := s.lines.map (fun l => l.fillRange 0 s.width cleared)
    xpos := 0
    ypos := 0 }

/-- Surface::clear_eos. -/
def Surface.clearEos (s : Surface) (color : Nat) : Surface :=
  let attrs := CellAttributes.defaultWithBackground color
  let cleared := Cell.space attrs
  let ls := listModify s.lines s.ypos (fun l => l.fillRange s.xpos s.width cleared)
  { s with
    attributes := attrs
    lines := ls.take (s.ypos + 1) ++
      (ls.drop (s.ypos + 1)).map (fun l => l.fillRange 0 s.width cleared) }

/-- Surface::clear_eol. -/
def Surface.clearEol (s : Surface) (color : Nat) : Surface :=
  let attrs := CellAttributes.defaultWithBackground color
  let cleared := Cell.space attrs
  { s with
    attributes := attrs
    lines := listModify s.lines s.ypos (fun l => l.fillRange s.xpos s.width cleared) }

/-- Rotate a list left by n (slice::rotate_left). -/
def rotl (l : List α) (n : Nat) : List α := l.drop n ++ l.take n

/-- Surface::scroll_region_up. -/
def Surface.scrollRegionUpOp (s : Surface) (start size count : Nat) : Surface :=
  let blanked := (List.range' start (min count size)).foldl
    (fun ls i => ls.set i (Line.withWidth s.width)) s.lines
  let ls :=
    if 0 < count ∧ count < size then
      blanked.take start ++ rotl ((blanked.drop start).take size) count ++
        blanked.drop (start + size)
    else blanked
  { s with lines := ls }

/-- Surface::scroll_region_down. -/
def Surface.scrollRegionDownOp (s : Surface) (start size count : Nat) : Surface :=
  let blanked := (List.range' (start + size - min count size) (min count size)).foldl
    (fun ls i => ls.set i (Line.withWidth s.width)) s.lines
  let ls :=
    if 0 < count ∧ count < size then
      blanked.take start ++ rotl ((blanked.drop start).take size) (size - count) ++
        blanked.drop (start + size)
    else blanked
  { s with lines := ls }

/-- Surface::line_attribute: set the line-attribute bits of the cursor
line (Line setters modelled from the spec as an enumeration of the four
modes). -/
def Surface.lineAttributeOp (s : Surface) (attr : LineAttribute) : Surface :=
  let bits := match attr with
    | .singleWidthLine => 0
    | .doubleWidthLine => 1
    | .doubleHeightTopHalfLine => 2
    | .doubleHeightBottomHalfLine => 3
  { s with lines := listModify s.lines s.ypos (fun l => l.setLineBits bits) }

/-- Surface::apply_change. -/
def Surface.applyChange (s : Surface) : Change → Surface
  | .allAttributes attrs => { s with attributes := attrs }
  | .text gs => s.printText gs
  | .attribute d => { s with attributes := s.attributes.applyChange d }
  | .cursorPosition x y => s.setCursorPos x y
  | .clearScreen color => s.clearScreen color
  | .clearToEndOfLine color => s.clearEol color
  | .clearToEndOfScreen color => s.clearEos color
  | .cursorColor color => { s with cursorColorField := color }
  | .cursorShape shape => { s with cursorShapeField := some shape }
  | .cursorVisibility v => { s with cursorVisibilityField := v }
  | .title t => { s with title := t }
  | .scrollRegionUp f sz c => s.scrollRegionUpOp f sz c
  | .scrollRegionDown f sz c => s.scrollRegionDownOp f sz c
  | .lineAttribute a => s.lineAttributeOp a

/-- Surface::resize. -/
def Surface.resize (s : Surface) (width height : Nat) : Surface :=
  let s :=
    if s.changes ≠ [] then { s with seqno := s.seqno + 1, changes := [] }
    else s
  let ls := s.lines.take height ++
    List.replicate (height - s.lines.length) (Line.withWidth width)
  let ls := ls.map (fun l => l.resize width)
  let s := { s with lines := ls, width := width, height := height }
  { s with
    xpos := computePositionChange s.xpos (.relative 0) width
    ypos := computePositionChange s.ypos (.relative 0) height }

/-- Surface::new. -/
def Surface.new (w h : Nat) : Surface := Surface.empty.resize w h

/-- Surface::add_changes: apply every change, then advance the
sequence number and append to the change log. -/
def Surface.addChanges (s : Surface) (cs : List Change) : Nat × Surface :=
  let seq := s.seqno - 1 + cs.length
  let s2 := cs.foldl Surface.applyChange s
  (seq, { s2 with seqno := s2.seqno + cs.length, changes := s2.changes ++ cs })

/-- Surface::add_change. -/
def Surface.addChange (s : Surface) (c : Change) : Nat × Surface :=
  let s2 := s.applyChange c
  (s.seqno, { s2 with seqno := s2.seqno + 1, changes := s2.changes ++ [c] })

/-- estimate_full_paint_cost: 3 + width*height*1.2 (the f64 arithmetic
of the source is exact for any realistic surface; it is embedded as
Nat arithmetic with truncation). -/
def Surface.estimateFullPaintCost (s : Surface) : Nat :=
  3 + s.width * s.height * 12 / 10

/-- What get_changes returns: either a full repaint (the content of
repaint_all is not needed by any claim and is abstracted) or the
incremental suffix of the change log. -/
inductive PaintPlan where
  | fullRepaint
  | incremental (cs : List Change)
deriving DecidableEq, Repr

/-- Surface::get_changes: full repaint when continuity with the change
log is lost or the incremental delta is costlier than a repaint, else
the borrowed suffix of the log. -/
def Surface.getChanges (s : Surface) (seq : Nat) : Nat × PaintPlan :=
  let first := s.seqno - s.changes.length
  if seq = 0 ∨ first > seq ∨ s.seqno = 0 then
    (s.seqno, .fullRepaint)
  else if s.seqno - seq > s.estimateFullPaintCost then
    (s.seqno, .fullRepaint)
  else
    (s.seqno, .incremental (s.changes.drop (seq - first)))

/-- Surface::flush_changes_older_than. -/
def Surface.flushChangesOlderThan (s : Surface) (seq : Nat) : Surface :=
  let first := s.seqno - s.changes.length
  let idx := seq - first
  if idx > s.changes.length then s
  else { s with changes := s.changes.drop idx }

/-! ## The diff engine (DiffState, diff_line, diff_region,
diff_screens) -/

/-- DiffState from surface/mod.rs. -/
structure DiffState where
  changes : List Change
  cursor : Option (Nat × Nat)
  attr : Option CellAttributes
deriving DecidableEq, Repr

/-- The empty DiffState. -/
def DiffState.init : DiffState := ⟨[], none, none⟩

/-- The text coalescing at the end of DiffState::set_cell: append to a
trailing Text change, else push a fresh one. -/
def pushTextGlyph (cs : List Change) (g : Grapheme) : List Change :=
  match cs.getLast? with
  | some (.text gs) => cs.dropLast ++ [.text (gs ++ [.glyph g])]
  | _ => cs ++ [.text [.glyph g]]

/-- DiffState::set_cell: emit a cursor move unless the tracked cursor
is already at the target, emit the attributes unless they are already
active, then append the cell text. -/
def DiffState.pushCell (st : DiffState) (col row : Nat) (oc : Cell) : DiffState :=
  let cs :=
    match st.cursor with
    | some (r, c) =>
      if r = row ∧ c = col then st.changes
      else st.changes ++ [.cursorPosition (.absolute col) (.absolute row)]
    | none => st.changes ++ [.cursorPosition (.absolute col) (.absolute row)]
  let cs2 :=
    match st.attr with
    | some a => if a = oc.attrs then cs else cs ++ [.allAttributes oc.attrs]
    | none => cs ++ [.allAttributes oc.attrs]
  { changes := pushTextGlyph cs2 oc.g
    cursor := some (row, col + oc.width)
    attr := some oc.attrs }

/-- DiffState::diff_cells: skip cells with identical contents. -/
def DiffState.diffCells (st : DiffState) (col row : Nat) (cell other : Cell) : DiffState :=
  if cell = other then st else st.pushCell col row other

/-- The peek loop of diff_line: advance through the visible cells of
the old line to find one at the same relative position; cells strictly
before it are consumed, the found cell is only peeked. -/
def seekComparison : List (Nat × Cell) → Nat → Nat → List (Nat × Cell) × Option Cell
  | [], _, _ => ([], none)
  | (i, c) :: rest, x, relX =>
    if i - x = relX then ((i, c) :: rest, some c)
    else if relX < i - x then ((i, c) :: rest, none)
    else seekComparison rest x relX

/-- The per-target-cell loop of diff_line. -/
def diffLineGo (row x otherX : Nat) :
    DiffState → List (Nat × Cell) → List (Nat × Cell) → DiffState
  | st, _, [] => st
  | st, cells, (oi, oc) :: rest =>
    let relX := oi - otherX
    let (cells2, comp) := seekComparison cells x relX
    let st2 :=
      match comp with
      | some cc => st.diffCells (x + relX) row cc oc
      | none => st.pushCell (x + relX) row oc
    diffLineGo row x otherX st2 cells2 rest

/-- diff_line from surface/mod.rs: changes replacing the contents of
line in the range x..x+width with those of other_line in the range
other_x..other_x+width. -/
def diffLine (st : DiffState) (line : Line) (rowNum : Nat) (otherLine : Line)
    (x width otherX : Nat) : DiffState :=
  let cells := (line.visibleCells.dropWhile (fun p => p.1 < x)).takeWhile
    (fun p => p.1 < x + width)
  let otherCells := (otherLine.visibleCells.dropWhile (fun p => p.1 < otherX)).takeWhile
    (fun p => p.1 < otherX + width)
  diffLineGo rowNum x otherX st cells otherCells

/-- Surface::diff_region. -/
def Surface.diffRegion (s : Surface) (x y width height : Nat) (other : Surface)
    (otherX otherY : Nat) : List Change :=
  let selfRows := ((s.lines.enum).drop y).takeWhile (fun p => p.1 < y + height)
  let pairs := selfRows.zip (other.lines.drop otherY)
  (pairs.foldl
    (fun st p => diffLine st p.1.2 p.1.1 p.2 x width otherX)
    DiffState.init).changes

/-- Surface::diff_screens. -/
def Surface.diffScreens (s other : Surface) : List Change :=
  s.diffRegion 0 0 s.width s.height other 0 0

/-! ## The Kitty keyboard-protocol flag stack
(src/term/src/terminalstate/performer.rs, csi_dispatch,
Keyboard::SetKittyState / PushKittyState / PopKittyState)

The keyboard_stack lives on the Screen (not under src/); it is a plain
Vec of KeyboardEncoding values, so it is embedded as a list whose last
element is the top of the stack, with Vec::push, Vec::pop and
Vec::remove(0) as append, dropLast and drop 1. -/

/-- KeyboardEncoding (termwiz input.rs, not under src/): the stack may
mix the xterm/csi-u/win32 encodings and the Kitty encoding carrying a
flag bitmask. -/
inductive KeyboardEncoding where
  | xterm
  | csiU
  | win32
  | kitty (flags : Nat)
deriving DecidableEq, Repr

/-- KittyKeyboardMode from termwiz::escape::csi. -/
inductive KittyKeyboardMode where
  | assignAll
  | setSpecified
  | clearSpecified
deriving DecidableEq, Repr

/-- The three Kitty keyboard CSI operations dispatched by
Performer::csi_dispatch. -/
inductive KittyOp where
  | set (flags : Nat) (mode : KittyKeyboardMode)
  | push (flags : Nat) (mode : KittyKeyboardMode)
  | pop (n : Nat)
deriving DecidableEq, Repr

/-- The current flags: the flags of the Kitty entry on top of the
stack, NONE otherwise. -/
def currentKittyFlags (stack : List KeyboardEncoding) : Nat :=
  match stack.getLast? with
  | some (.kitty f) => f
  | _ => 0

/-- The merge of new flags into the current ones per the mode:
assign-all replaces, set-specified is bitwise or, clear-specified is
bitwise difference (the bitflags Sub). -/
def mergeKittyFlags (cur flags : Nat) : KittyKeyboardMode → Nat
  | .assignAll => flags
  | .setSpecified => cur ||| flags
  | .clearSpecified => Nat.ldiff cur flags

/-- The pop loop: for _ in 0..n { stack.pop() }. -/
def popKitty (stack : List KeyboardEncoding) : Nat → List KeyboardEncoding
  | 0 => stack
  | n + 1 => popKitty stack.dropLast n

/-- One Kitty keyboard operation, as performed by csi_dispatch.  The
set and push arms are gated on config.enable_kitty_keyboard(); the pop
arm is not. -/
def applyKittyOp (enabled : Bool) (stack : List KeyboardEncoding) :
    KittyOp → List KeyboardEncoding
  | .set flags mode =>
    if enabled then
      let merged := mergeKittyFlags (currentKittyFlags stack) flags mode
      stack.dropLast ++ [.kitty merged]
    else stack
  | .push flags mode =>
    if enabled then
      let merged := mergeKittyFlags (currentKittyFlags stack) flags mode
      let st := stack ++ [.kitty merged]
      if 128 < st.length then st.drop 1 else st
    else stack
  | .pop n => popKitty stack n

/-- A sequence of Kitty keyboard operations. -/
def applyKittyOps (enabled : Bool) (stack : List KeyboardEncoding)
    (ops : List KittyOp) : List KeyboardEncoding :=
  ops.foldl (applyKittyOp enabled) stack

/-- The concrete surface of the C3 failing input: a 2x2 surface that
has recorded one Text change (seqno 1), whose log was then pruned by
flush_changes_older_than(1), so the buffered change log is empty while
seqno is 1. -/
def c3Surface : Surface :=
  (((Surface.new 2 2).addChange (.text [.glyph 4])).2).flushChangesOlderThan 1

/-! ## Backspace with reverse wraparound
(src/term/src/terminalstate/performer.rs, Performer::control,
ControlCode::Backspace)

The cursor, margins and mode flags of TerminalState involved in the
backspace handling (terminalstate/mod.rs is not under src/) are
embedded as a small record.  The x coordinate and the left/right
margins are usize, the y coordinate and the top/bottom margins are
i64. -/

/-- The fragment of TerminalState read and written by the backspace
handler. -/
structure BsState where
  cursorX : Nat
  cursorY : Int
  wrapNext : Bool
  reverseWraparound : Bool
  autoWrap : Bool
  lrStart : Nat
  lrEnd : Nat
  tbStart : Int
  tbEnd : Int
  width : Nat
  height : Int
deriving DecidableEq, Repr

/-- A Position argument of TerminalState::set_cursor_pos. -/
inductive TPos where
  | absolute (n : Int)
  | relative (d : Int)
deriving DecidableEq, Repr

/-- Clamp an Int into [lo, hi]. -/
def clampInt (v lo hi : Int) : Int := max lo (min v hi)

/-- Modelled from the spec: TerminalState::set_cursor_pos
(terminalstate/mod.rs is not under src/) applies Absolute/Relative
coordinate updates and clamps the cursor into [0,width) x [0,height)
(spec section 3). -/
def bsSetCursorPos (st : BsState) (x y : TPos) : BsState :=
  let nx : Int :=
    match x with
    | .absolute n => n
    | .relative d => (st.cursorX : Int) + d
  let ny : Int :=
    match y with
    | .absolute n => n
    | .relative d => st.cursorY + d
  { st with
    cursorX := (clampInt nx 0 ((st.width : Int) - 1)).toNat
    cursorY := clampInt ny 0 (st.height - 1) }

/-- The ControlCode::Backspace arm of Performer::control. -/
def bsBackspace (st : BsState) : BsState :=
  if st.reverseWraparound && st.autoWrap &&
      decide (st.cursorX = st.lrStart) && decide (st.cursorY = st.tbStart) then
    bsSetCursorPos st (.absolute ((st.lrEnd : Int) - 1)) (.absolute (st.tbEnd - 1))
  else if st.reverseWraparound && st.autoWrap && decide (st.cursorX ≤ st.lrStart) then
    bsSetCursorPos st (.absolute ((st.lrEnd : Int) - 1)) (.relative (-1))
  else if st.reverseWraparound && st.autoWrap &&
      decide (st.cursorX = st.lrEnd - 1) && st.wrapNext then
    { st with wrapNext := false }
  else if st.cursorX = st.lrStart then
    st
  else
    bsSetCursorPos st (.relative (-1)) (.relative 0)

/-- The C7 counterexample state: a 2x2 screen with a one-column scroll
region (left/right margins 0..1), reverse wraparound and auto wrap on,
the cursor at the last column of the region (which is also its left
margin and top row) with a wrap pending. -/
def c7State : BsState :=
  { cursorX := 0, cursorY := 0, wrapNext := true,
    reverseWraparound := true, autoWrap := true,
    lrStart := 0, lrEnd := 1, tbStart := 0, tbEnd := 2,
    width := 2, height := 2 }

/-! ## Full reset (RIS)
(src/term/src/terminalstate/performer.rs, Performer::esc_dispatch,
Esc::Code(EscCode::FullReset))

TerminalState itself (terminalstate/mod.rs) and the Screen are not
under src/; the record below carries exactly the fields assigned by
the FullReset arm, modelled from the spec, while the sequence of field
assignments and screen calls is translated from the source. -/

/-- CharSet from terminalstate. -/
inductive CharSet where
  | ascii
  | decLineDrawing
  | uk
deriving DecidableEq, Repr

/-- MouseEncoding from terminalstate. -/
inductive MouseEncoding where
  | x10
  | utf8
  | sgr
  | sgrPixels
deriving DecidableEq, Repr

/-- TabStop::new(width, 8): modelled from the spec as the set of
columns at multiples of the period. -/
def TabStop.new (width period : Nat) : List Nat :=
  (List.range width).filter (fun c => c % period = 0)

/-- The mutable TerminalState fields touched by a full reset, plus the
screen dimensions and the keyboard stack that lives on the Screen. -/
structure TermStateFull where
  pen : CellAttributes
  cursorX : Nat
  cursorY : Int
  wrapNext : Bool
  clearSemanticAttributeOnNewline : Bool
  insert : Bool
  decAutoWrap : Bool
  reverseWraparound : Bool
  reverseVideo : Bool
  decOriginMode : Bool
  usePrivateColorRegistersForEachGraphic : Bool
  colorMap : Nat
  applicationCursorKeys : Bool
  sixelDisplayMode : Bool
  decAnsiMode : Bool
  applicationKeypad : Bool
  bracketedPaste : Bool
  focusTracking : Bool
  mouseTracking : Bool
  mouseEncoding : MouseEncoding
  keyboardEncoding : KeyboardEncoding
  sixelScrollsRight : Bool
  anyEventMouse : Bool
  buttonEventMouse : Bool
  currentMouseButtons : List Nat
  cursorVisible : Bool
  g0Charset : CharSet
  g1Charset : CharSet
  shiftOut : Bool
  newlineMode : Bool
  tabs : List Nat
  palette : Option Nat
  tbMarginStart : Int
  tbMarginEnd : Int
  lrMarginStart : Nat
  lrMarginEnd : Nat
  unicodeVersion : Nat
  suppressInitialTitleChange : Bool
  accumulatingTitle : Option (List Nat)
  keyboardStack : List KeyboardEncoding
  altScreenIsActive : Bool
  physicalRows : Nat
  physicalCols : Nat
deriving DecidableEq, Repr

/-- Modelled from the spec: default_color_map() (not under src/)
produces the default colour map; its value is abstracted as 0. -/
def defaultColorMap : Nat := 0

/-- The screen-level calls made by the FullReset arm, in source
order. -/
inductive ScreenOp where
  | fullResetScreens
  | activateAlt
  | activatePrimary
  | eraseDisplay
  | eraseScrollback
deriving DecidableEq, Repr

/-- The Esc::Code(EscCode::FullReset) arm: every mutable field is
reset, then the screen is cycled: full_reset, activate the alternate
screen, erase the display (the alternate buffer), activate the primary
screen, erase the scrollback, erase the display (the primary
buffer). -/
def fullReset (st : TermStateFull) (configUnicodeVersion : Nat) :
    TermStateFull × List ScreenOp :=
  ({ st with
      pen := CellAttributes.default
      cursorX := 0
      cursorY := 0
      wrapNext := false
      clearSemanticAttributeOnNewline := false
      insert := false
      decAutoWrap := true
      reverseWraparound := false
      reverseVideo := false
      decOriginMode := false
      usePrivateColorRegistersForEachGraphic := false
      colorMap := defaultColorMap
      applicationCursorKeys := false
      sixelDisplayMode := false
      decAnsiMode := false
      applicationKeypad := false
      bracketedPaste := false
      focusTracking := false
      mouseTracking := false
      mouseEncoding := MouseEncoding.x10
      keyboardEncoding := KeyboardEncoding.xterm
      sixelScrollsRight := false
      anyEventMouse := false
      buttonEventMouse := false
      currentMouseButtons := []
      cursorVisible := true
      g0Charset := CharSet.ascii
      g1Charset := CharSet.ascii
      shiftOut := false
      newlineMode := false
      tabs := TabStop.new st.physicalCols 8
      palette := none
      tbMarginStart := 0
      tbMarginEnd := (st.physicalRows : Int)
      lrMarginStart := 0
      lrMarginEnd := st.physicalCols
      unicodeVersion := configUnicodeVersion
      suppressInitialTitleChange := false
      accumulatingTitle := none
      keyboardStack := []
      altScreenIsActive := false },
   [.fullResetScreens, .activateAlt, .eraseDisplay,
    .activatePrimary, .eraseScrollback, .eraseDisplay])

/-- Modelled from the spec: erase_in_display(EraseDisplay) erases the
currently active screen buffer, so we count how many of the erase
operations in a trace hit the alternate buffer, tracking which buffer
the activate ops select. -/
def countAltErases : List ScreenOp → Bool → Nat
  | [], _ => 0
  | .activateAlt :: rest, _ => countAltErases rest true
  | .activatePrimary :: rest, _ => countAltErases rest false
  | .eraseDisplay :: rest, alt =>
    (if alt then 1 else 0) + countAltErases rest alt
  | _ :: rest, alt => countAltErases rest alt

/-- Which buffer is active after running a trace. -/
def finalAltActive : List ScreenOp → Bool → Bool
  | [], alt => alt
  | .activateAlt :: rest, _ => finalAltActive rest true
  | .activatePrimary :: rest, _ => finalAltActive rest false
  | _ :: rest, alt => finalAltActive rest alt

/-! ## The byte-decoder state machine
(src/termwiz/src/escape/parser/mod.rs, Parser::parse)

Parser::parse feeds every byte of the input, one at a time, into the
vtparse::VTParser state machine, whose state (including any partially
received escape/CSI/OSC sequence and partial UTF-8 character) persists
in the Parser between calls.  The vtparse crate is part of this
repository but is not under src/, so the machine below is modelled
from the spec (section 4.1): a table-driven state machine consuming
raw bytes and emitting structured print/control/CSI/OSC/escape events,
carrying the state of truncated sequences over to the next call. -/

/-- The structured events emitted by the byte decoder. -/
inductive VTEvent where
  | print (cp : Nat)
  | execute (b : Byte)
  | escDispatch (intermediates : List Byte) (final : Byte)
  | csiDispatch (params : List Byte) (intermediates : List Byte) (final : Byte)
  | oscDispatch (params : List (List Byte))
deriving DecidableEq, Repr

/-- The decoder state carried between calls: ground, a partially
received escape / CSI / OSC sequence, or a partially received UTF-8
character. -/
inductive VTMode where
  | ground
  | escape (intermediates : List Byte)
  | csi (params : List Byte) (intermediates : List Byte)
  | osc (cur : List Byte) (params : List (List Byte))
  | oscEsc (cur : List Byte) (params : List (List Byte))
  | utf8 (needed : Nat) (acc : Nat)
deriving DecidableEq, Repr

/-- Begin a sequence after an ESC introducer (shared by every state,
since ESC cancels any sequence in progress). -/
def vtEsc : VTMode := .escape []

/-- The ground-state transition for one byte: printables are emitted,
C0 bytes executed, ESC opens an escape sequence, UTF-8 lead bytes open
a multi-byte character. -/
def vtGroundStep (b : Byte) : VTMode × List VTEvent :=
  if b = 0x1b then (vtEsc, [])
  else if b < 0x20 then (.ground, [.execute b])
  else if b < 0x80 then (.ground, [.print b])
  else if 0xc2 ≤ b && b ≤ 0xdf then (.utf8 1 (b - 0xc0), [])
  else if 0xe0 ≤ b && b ≤ 0xef then (.utf8 2 (b - 0xe0), [])
  else if 0xf0 ≤ b && b ≤ 0xf4 then (.utf8 3 (b - 0xf0), [])
  else (.ground, [])

/-- The escape-state transition for one byte: collect intermediates,
enter CSI or OSC collection on bracket introducers, dispatch on a
final byte. -/
def vtEscapeStep (inter : List Byte) (b : Byte) : VTMode × List VTEvent :=
  if b = 0x1b then (vtEsc, [])
  else if b = 0x5b then (.csi [] [], [])
  else if b = 0x5d then (.osc [] [], [])
  else if 0x20 ≤ b && b ≤ 0x2f then (.escape (inter ++ [b]), [])
  else if 0x30 ≤ b && b ≤ 0x7e then (.ground, [.escDispatch inter b])
  else if b < 0x20 then (.escape inter, [.execute b])
  else (.ground, [])

/-- One byte of the decoder.  Printables are emitted from ground; C0
bytes are executed immediately (also inside CSI sequences); ESC starts
an escape sequence from anywhere; bracket/bracket-close introduce CSI
and OSC collection; OSC ends at BEL or at ESC-backslash (ST); multi-
byte UTF-8 sequences are accumulated across calls. -/
def vtStep : VTMode → Byte → VTMode × List VTEvent
  | .ground, b => vtGroundStep b
  | .utf8 needed acc, b =>
    if 0x80 ≤ b && b ≤ 0xbf then
      let acc2 := acc * 64 + (b - 0x80)
      if needed = 1 then (.ground, [.print acc2])
      else (.utf8 (needed - 1) acc2, [])
    else
      -- a malformed continuation aborts the character and reprocesses
      -- the byte from ground
      vtGroundStep b
  | .escape inter, b => vtEscapeStep inter b
  | .csi params inter, b =>
    if b = 0x1b then (vtEsc, [])
    else if 0x30 ≤ b && b ≤ 0x3f then (.csi (params ++ [b]) inter, [])
    else if 0x20 ≤ b && b ≤ 0x2f then (.csi params (inter ++ [b]), [])
    else if 0x40 ≤ b && b ≤ 0x7e then (.ground, [.csiDispatch params inter b])
    else if b < 0x20 then (.csi params inter, [.execute b])
    else (.ground, [])
  | .osc cur params, b =>
    if b = 0x07 then (.ground, [.oscDispatch (params ++ [cur])])
    else if b = 0x1b then (.oscEsc cur params, [])
    else (.osc (if b = 0x3b then [] else cur ++ [b])
      (if b = 0x3b then params ++ [cur] else params), [])
  | .oscEsc cur params, b =>
    if b = 0x5c then (.ground, [.oscDispatch (params ++ [cur])])
    else
      -- any other byte after the ESC cancels the OSC; the ESC then
      -- behaves as a fresh introducer for the byte at hand
      vtEscapeStep [] b

/-- Feed a byte slice: fold vtStep over the bytes, accumulating the
emitted events — exactly what VTParser::parse does with parse_byte. -/
def vtFeed (m : VTMode) : List Byte → VTMode × List VTEvent
  | [] => (m, [])
  | b :: rest =>
    let (m2, ev) := vtStep m b
    let (m3, evs) := vtFeed m2 rest
    (m3, ev ++ evs)

/-! ## Auxiliary notions for the diff round-trip (claim C1)

The verification of the diff round-trip factors the change stream of
diff_screens through an intermediate list of cell writes: the diff
pass decides which target cells must be written (rowWritesGo mirrors
the decision structure of diff_line), the DiffState encoding folds
those writes into a compressed change stream (encodeSt), and the
replay of that stream through add_changes performs exactly those
writes (applyWritesLines).  Lines are described through their
decomposition into blocks: a cell followed by the placeholder slots it
owns, truncated at the line width. -/

/-- One cell write of a diff: target column, target row, and the cell
to store. -/
structure CWrite where
  col : Nat
  row : Nat
  cell : Cell
deriving DecidableEq, Repr

/-- Apply a change list to a surface without recording it (the loop
body of add_changes). -/
def applyNoLog (s : Surface) (cs : List Change) : Surface :=
  cs.foldl Surface.applyChange s

/-- Fold a write list into a DiffState via DiffState::set_cell. -/
def encodeSt (st : DiffState) (ws : List CWrite) : DiffState :=
  ws.foldl (fun st w => st.pushCell w.col w.row w.cell) st

/-- Perform a write list directly on the line grid. -/
def applyWritesLines (lines : List Line) (ws : List CWrite) : List Line :=
  ws.foldl (fun ls w => listModify ls w.row (fun l => l.setCell w.col w.cell)) lines

/-- The order in which the diff emits writes: strictly later rows, or
the same row at a column past the storage footprint of the previous
write. -/
def wOrd (a b : CWrite) : Prop :=
  a.row < b.row ∨ (a.row = b.row ∧ a.col + effW a.cell ≤ b.col)

/-- Validity of a write list for a W x H grid. -/
def writesValid (W H : Nat) (ws : List CWrite) : Prop :=
  (∀ w ∈ ws, w.col < W ∧ w.row < H) ∧ ws.Pairwise wOrd

/-- The physical storage of one cell: the cell itself followed by the
placeholder slots of its extra columns. -/
def block (c : Cell) : List Slot :=
  .cell c :: List.replicate (effW c - 1) .pad

/-- The physical storage of a cell list. -/
def blocksOf (cs : List Cell) : List Slot :=
  (cs.map block).flatten

/-- The starting column of every cell of a list laid out from column
i. -/
def cellStarts (i : Nat) : List Cell → List (Nat × Cell)
  | [] => []
  | c :: cs => (i, c) :: cellStarts (i + effW c) cs

/-- The cell starting exactly at column p in an ascending visible-cell
list, if any (what the peek loop of diff_line finds). -/
def findAtP (l : List (Nat × Cell)) (p : Nat) : Option Cell :=
  match l.dropWhile (fun q => q.1 < p) with
  | (i, c) :: _ => if i = p then some c else none
  | [] => none

/-- The write decisions of diff_line: for every cell of the target
line, seek the visible cell of the old line at the same position; skip
it when the contents agree, emit a write otherwise. -/
def rowWritesGo (x otherX : Nat) :
    List (Nat × Cell) → List (Nat × Cell) → List (Nat × Cell)
  | _, [] => []
  | cells, (oi, oc) :: rest =>
    let relX := oi - otherX
    let sk := seekComparison cells x relX
    match sk.2 with
    | some cc =>
      (if cc = oc then [] else [(x + relX, oc)]) ++ rowWritesGo x otherX sk.1 rest
    | none => (x + relX, oc) :: rowWritesGo x otherX sk.1 rest

/-- The write decisions for one full-width row pair. -/
def rowWrites (line other : Line) (width : Nat) : List (Nat × Cell) :=
  rowWritesGo 0 0 (line.visibleCells.takeWhile (fun p => p.1 < width))
    (other.visibleCells.takeWhile (fun p => p.1 < width))

/-- The write decisions of diff_screens: each paired row contributes
its row writes tagged with the row number. -/
def allWrites (a b : Surface) : List CWrite :=
  ((((a.lines.enum).takeWhile (fun p => p.1 < a.height)).zip b.lines).map
    (fun p => (rowWrites p.1.2 p.2 a.width).map
      (fun q => CWrite.mk q.1 p.1.1 q.2))).flatten

/-- Perform the writes of one row on its physical storage. -/
def applyRowWrites (slots : List Slot) (ws : List (Nat × Cell)) : List Slot :=
  ws.foldl (fun s w => setCellSlots s w.1 w.2) slots

/-- Blank an orphaned placeholder at the head of a slot list. -/
def padFix : List Slot → List Slot
  | .pad :: t => blankSlot :: t
  | l => l

/-- The relation between the unwritten tail of a row being rewritten
and the original line: either the original line is aligned at the
current position, or the position held the placeholder of a wide cell
that was overwritten, now blanked. -/
def RestRel (csA : List Cell) (p : Nat) (restPart : List Slot) : Prop :=
  (∃ csAc csAr, csA = csAc ++ csAr ∧ (blocksOf csAc).length = p ∧
    restPart = blocksOf csAr) ∨
  (∃ csAc csAr cw, csA = csAc ++ cw :: csAr ∧ effW cw = 2 ∧
    (blocksOf csAc).length + 1 = p ∧ restPart = blankSlot :: blocksOf csAr)

/-- A well-formed surface: one line per row, and every line is the
physical storage of some cell list, truncated at the width (so wide
cells and their placeholders are laid out consistently and the line
has full physical width). -/
def Surface.wf (s : Surface) : Prop :=
  s.lines.length = s.height ∧
  ∀ l ∈ s.lines, ∃ cs, l.slots = (blocksOf cs).take s.width ∧
    s.width ≤ (blocksOf cs).length

/-- The relation between the cursor/attribute tracking of DiffState
and the surface reached by replaying the encoded changes: after a
nonempty write list the tracked cursor sits just past the last write
(by its reported width) while the real cursor sits past its storage
footprint, and the tracked attributes are active. -/
def TrackInv (S : Surface) (st : DiffState) (ws : List CWrite) : Prop :=
  match ws.getLast? with
  | none => st.cursor = none ∧ st.attr = none
  | some w => st.cursor = some (w.row, w.col + w.cell.width) ∧
      st.attr = some w.cell.attrs ∧
      S.xpos = w.col + effW w.cell ∧ S.ypos = w.row ∧
      S.attributes = w.cell.attrs

/-- A concrete well-formed 2x1 surface whose row holds two narrow
cells, used to exercise the diff round-trip. -/
def c1A : Surface :=
  ⟨2, 1, [⟨[Slot.cell ⟨1, ⟨0, 0, 0⟩⟩, Slot.cell ⟨1, ⟨0, 0, 0⟩⟩], 0⟩],
    ⟨0, 0, 0⟩, 0, 0, 0, [], none, .visible, 0, []⟩

/-- A concrete well-formed 2x1 surface whose row holds one wide cell
and its placeholder, used as the diff target. -/
def c1B : Surface :=
  ⟨2, 1, [⟨[Slot.cell ⟨2, ⟨1, 2, 3⟩⟩, Slot.pad], 0⟩],
    ⟨0, 0, 0⟩, 0, 0, 0, [], none, .visible, 0, []⟩

end WezSpec

namespace WezSpec

/-! ## Theorems for claims C9 and C6 -/

/-- C9: parsing OSC 52 with selection class "c" and base64 payload
"aGVsbG8=" yields SetSelection with the CLIPBOARD bit and payload
"hello"; an empty selection-class parameter defaults to SELECT | CUT0;
and any selection-class character outside the fixed alphabet
"cps0123456789" makes the selection parse fail. -/
theorem c9_osc52_selection :
    oscParse [[53, 50], [99], [97, 71, 86, 115, 98, 71, 56, 61]] =
      .setSelection Selection.CLIPBOARD [104, 101, 108, 108, 111] ∧
    Selection.tryParse [] = some (Selection.SELECT ||| Selection.CUT0) ∧
    ∀ b : Byte,
      b ∉ ([99, 112, 115, 48, 49, 50, 51, 52, 53, 54, 55, 56, 57] : List Byte) →
      Selection.tryParse [b] = none := by
  refine ⟨by decide, by decide, ?_⟩
  intro b hb
  have hbit : Selection.charBit b = none := by
    unfold Selection.charBit
    simp only [List.mem_cons, List.not_mem_nil, or_false] at hb
    push_neg at hb
    obtain ⟨h1, h2, h3, h4, h5, h6, h7, h8, h9, h10, h11, h12, h13⟩ := hb
    simp [h1, h2, h3, h4, h5, h6, h7, h8, h9, h10, h11, h12, h13]
  unfold Selection.tryParse
  simp [hbit]

/-- Witness for C9: the character x (byte 120) is outside the selection
alphabet and fails the selection parse. -/
theorem c9_osc52_selection_witness :
    (120 : Byte) ∉ ([99, 112, 115, 48, 49, 50, 51, 52, 53, 54, 55, 56, 57] : List Byte) ∧
    Selection.tryParse [120] = none :=
  ⟨by decide, c9_osc52_selection.2.2 120 (by decide)⟩

/-- C6 counterexample: an APC payload is NOT surfaced to the caller as
an event carrying the raw bytes — the Performer's apc_dispatch emits no
action at all for the concrete payload [107]. -/
theorem c6_counterexample_apc_dropped :
    performerApcDispatch [107] = [] := by
  rfl

/-- C6 (amended): a malformed OSC (unknown code, wrong argument count,
numeric parameter parse failure) is surfaced as the Unspecified variant
carrying the raw bytes, never dropped; but an APC payload is silently
ignored (no event), and a C0/C1 byte with no named ControlCode is
dropped rather than surfaced. -/
theorem c6_malformed_sequences_surfaced :
    (∀ osc : List (List Byte), internalParse osc = none →
      oscParse osc = .unspecified osc) ∧
    oscParse [[51, 49, 51, 51, 55]] = .unspecified [[51, 49, 51, 51, 55]] ∧
    oscParse [[57]] = .unspecified [[57]] ∧
    oscParse [[49, 48, 52], [97, 98, 99]] = .unspecified [[49, 48, 52], [97, 98, 99]] ∧
    (∀ data : List Byte, performerApcDispatch data = []) ∧
    (∀ b : Byte, controlCodeFromU8 b = none → performerExecuteC0OrC1 b = []) := by
  refine ⟨?_, by decide, by decide, by decide, fun _ => rfl, ?_⟩
  · intro osc h
    unfold oscParse
    rw [h]
    rfl
  · intro b h
    unfold performerExecuteC0OrC1
    rw [h]

/-- Witness for C6 (amended): the unknown OSC code 31337 fails
internal_parse and is surfaced as Unspecified, and the unnamed C1 byte
0x80 is dropped. -/
theorem c6_malformed_sequences_surfaced_witness :
    (internalParse [[51, 49, 51, 51, 55]] = none ∧
      oscParse [[51, 49, 51, 51, 55]] = .unspecified [[51, 49, 51, 51, 55]]) ∧
    (controlCodeFromU8 128 = none ∧ performerExecuteC0OrC1 128 = []) :=
  ⟨⟨by decide, c6_malformed_sequences_surfaced.1 [[51, 49, 51, 51, 55]] (by decide)⟩,
   ⟨by decide, c6_malformed_sequences_surfaced.2.2.2.2.2 128 (by decide)⟩⟩

/-! ## Theorems for claims C10, C3 and C5 -/

/-- C10: flush_changes_older_than with a sequence number whose offset
past the start of the retained log exceeds the number of retained
changes leaves the whole Surface (change log, sequence number, grid,
cursor) unchanged: the guard returns before the split_off that would
otherwise panic. -/
theorem c10_flush_out_of_range_noop (s : Surface) (seq : Nat)
    (h : s.changes.length < seq - (s.seqno - s.changes.length)) :
    s.flushChangesOlderThan seq = s := by
  unfold Surface.flushChangesOlderThan
  simp only [gt_iff_lt, h, if_pos]

/-- Witness for C10: a freshly added and then fully flushed surface,
asked to flush at an offset past the retained log. -/
theorem c10_flush_out_of_range_noop_witness :
    (Surface.new 2 1).changes.length <
      5 - ((Surface.new 2 1).seqno - (Surface.new 2 1).changes.length) ∧
    (Surface.new 2 1).flushChangesOlderThan 5 = Surface.new 2 1 :=
  ⟨by decide, c10_flush_out_of_range_noop (Surface.new 2 1) 5 (by decide)⟩

/-- C3 (code bug): resize is documented to invalidate the change
stream and force the next get_changes to yield a full repaint, but
when the buffered log is empty at resize time the sequence number is
not bumped, and a consumer that was fully caught up (seq = 1) receives
an empty incremental change stream from get_changes instead of a full
repaint, even though the resize changed the grid from 2x2 to 3x3. -/
theorem c3_resize_stale_incremental :
    c3Surface.changes = [] ∧ c3Surface.seqno = 1 ∧
    (c3Surface.getChanges 1).2 = .incremental [] ∧
    (c3Surface.resize 3 3).width = 3 ∧ (c3Surface.resize 3 3).height = 3 ∧
    ((c3Surface.resize 3 3).getChanges 1).2 = .incremental [] ∧
    ((c3Surface.resize 3 3).getChanges 1).2 ≠ .fullRepaint := by
  refine ⟨by decide, by decide, by decide, by decide, by decide, by decide, by decide⟩

/-- C5 counterexample: a single CursorPosition change of the
EndRelative(0) form drives the cursor x position to width itself, so
the cursor is NOT clamped into [0,width): on a 1x1 surface the
resulting xpos equals 1 = width. -/
theorem c5_counterexample_endrelative :
    (((Surface.new 1 1).addChange
        (.cursorPosition (.endRelative 0) (.relative 0))).2).xpos = 1 ∧
    (((Surface.new 1 1).addChange
        (.cursorPosition (.endRelative 0) (.relative 0))).2).width = 1 := by
  exact ⟨by decide, by decide⟩

/-- C5 (amended): compute_position_change clamps Relative updates into
[0,limit) provided the current position is already in bounds, clamps
Absolute updates into [0,limit) whenever the limit is positive, but an
EndRelative(d) update is only bounded by limit itself (EndRelative(0)
places the cursor at the limit, one past the last valid cell), and
printing text can likewise leave x = width pending the deferred
wrap. -/
theorem c5_position_clamping :
    (∀ (cur : Nat) (d : Int) (limit : Nat), cur < limit →
      computePositionChange cur (.relative d) limit < limit) ∧
    (∀ (cur a limit : Nat), 0 < limit →
      computePositionChange cur (.absolute a) limit < limit) ∧
    (∀ (cur d limit : Nat),
      computePositionChange cur (.endRelative d) limit ≤ limit) := by
  refine ⟨?_, ?_, ?_⟩
  · intro cur d limit hcur
    unfold computePositionChange
    by_cases hd : 0 ≤ d
    · simp only [hd, if_pos]
      omega
    · simp only [hd, if_neg, if_false]
      omega
  · intro cur a limit hl
    simp only [computePositionChange]
    omega
  · intro cur d limit
    simp only [computePositionChange]
    omega

/-- Witness for C5 (amended): a Relative(-1) move from position 2 on a
width-3 line stays in bounds, as does Absolute(7) on a width-3 line;
EndRelative(0) lands exactly at the limit. -/
theorem c5_position_clamping_witness :
    ((2 : Nat) < 3 ∧ computePositionChange 2 (.relative (-1)) 3 < 3) ∧
    ((0 : Nat) < 3 ∧ computePositionChange 0 (.absolute 7) 3 < 3) ∧
    computePositionChange 0 (.endRelative 0) 3 ≤ 3 :=
  ⟨⟨by decide, c5_position_clamping.1 2 (-1) 3 (by decide)⟩,
   ⟨by decide, c5_position_clamping.2.1 0 7 3 (by decide)⟩,
   c5_position_clamping.2.2 0 0 3⟩

/-- The length never grows past 128 in one step. -/
theorem applyKittyOp_length (enabled : Bool) (stack : List KeyboardEncoding)
    (op : KittyOp) (h : stack.length ≤ 128) :
    (applyKittyOp enabled stack op).length ≤ 128 := by
  cases op with
  | set flags mode =>
    by_cases he : enabled = true
    · simp only [applyKittyOp, he, if_pos, List.length_append, List.length_dropLast,
        List.length_singleton]
      omega
    · simp only [applyKittyOp, Bool.not_eq_true] at he ⊢
      simp [he, h]
  | push flags mode =>
    by_cases he : enabled = true
    · simp only [applyKittyOp, he, if_pos]
      split
      · simp only [List.length_drop, List.length_append, List.length_singleton]
        omega
      · next hl =>
        simp only [List.length_append, List.length_singleton] at hl ⊢
        omega
    · simp only [applyKittyOp, Bool.not_eq_true] at he ⊢
      simp [he, h]
  | pop n =>
    simp only [applyKittyOp]
    induction n generalizing stack with
    | zero => simpa [popKitty] using h
    | succ k ih =>
      simp only [popKitty]
      exact ih stack.dropLast (by simp only [List.length_dropLast]; omega)

/-- C8: starting from any stack within the 128-entry cap, every
sequence of Kitty keyboard push/pop/set operations keeps the stack
within the cap; a push onto a full stack evicts the oldest entry; set
replaces the top entry with the merged flags; pop removes up to n
entries. -/
theorem c8_kitty_stack_cap :
    (∀ (enabled : Bool) (ops : List KittyOp) (stack : List KeyboardEncoding),
      stack.length ≤ 128 →
      (applyKittyOps enabled stack ops).length ≤ 128) ∧
    (∀ (stack : List KeyboardEncoding) (flags : Nat) (mode : KittyKeyboardMode),
      stack.length = 128 →
      applyKittyOp true stack (.push flags mode) =
        stack.drop 1 ++
          [.kitty (mergeKittyFlags (currentKittyFlags stack) flags mode)]) ∧
    (∀ (stack : List KeyboardEncoding) (flags : Nat) (mode : KittyKeyboardMode),
      applyKittyOp true stack (.set flags mode) =
        stack.dropLast ++
          [.kitty (mergeKittyFlags (currentKittyFlags stack) flags mode)]) ∧
    (∀ (enabled : Bool) (stack : List KeyboardEncoding) (n : Nat),
      (applyKittyOp enabled stack (.pop n)).length = stack.length - n) := by
  refine ⟨?_, ?_, ?_, ?_⟩
  · intro enabled ops
    induction ops with
    | nil => intro stack h; simpa [applyKittyOps] using h
    | cons op rest ih =>
      intro stack h
      simp only [applyKittyOps, List.foldl_cons]
      exact ih _ (applyKittyOp_length enabled stack op h)
  · intro stack flags mode h
    simp only [applyKittyOp, if_pos]
    have hlen : 128 < (stack ++ [KeyboardEncoding.kitty
        (mergeKittyFlags (currentKittyFlags stack) flags mode)]).length := by
      simp [h]
    simp only [hlen, if_pos]
    rw [List.drop_append_of_le_length (by omega)]
  · intro stack flags mode
    simp [applyKittyOp]
  · intro enabled stack n
    simp only [applyKittyOp]
    induction n generalizing stack with
    | zero => simp [popKitty]
    | succ k ih =>
      simp only [popKitty]
      rw [ih stack.dropLast]
      simp only [List.length_dropLast]
      omega

/-- Witness for C8: pushing onto a full 128-entry stack of xterm
entries evicts the oldest entry and stays at the cap. -/
theorem c8_kitty_stack_cap_witness :
    ((List.replicate 128 KeyboardEncoding.xterm).length ≤ 128 ∧
      (applyKittyOps true (List.replicate 128 .xterm)
        [.push 1 .assignAll]).length ≤ 128) ∧
    ((List.replicate 128 KeyboardEncoding.xterm).length = 128 ∧
      applyKittyOp true (List.replicate 128 .xterm) (.push 1 .assignAll) =
        (List.replicate 128 KeyboardEncoding.xterm).drop 1 ++
          [.kitty (mergeKittyFlags
            (currentKittyFlags (List.replicate 128 .xterm)) 1 .assignAll)]) := by
  constructor
  · exact ⟨by simp, c8_kitty_stack_cap.1 true [.push 1 .assignAll]
      (List.replicate 128 .xterm) (by simp)⟩
  · exact ⟨by simp, c8_kitty_stack_cap.2.1 (List.replicate 128 .xterm) 1
      .assignAll (by simp)⟩

/-- C7 counterexample: in a state satisfying the claim's premise for
the wrap-cancel behaviour (reverse wraparound and auto wrap on, cursor
in the last column of the region, wrap pending), backspace moves the
cursor (from row 0 to row 1) instead of cancelling the pending wrap
without moving: the top-left branch takes priority when the last
column coincides with the left margin. -/
theorem c7_counterexample_wrap_cancel :
    c7State.reverseWraparound = true ∧ c7State.autoWrap = true ∧
    c7State.cursorX = c7State.lrEnd - 1 ∧ c7State.wrapNext = true ∧
    (bsBackspace c7State).cursorY = 1 ∧ c7State.cursorY = 0 ∧
    (bsBackspace c7State).wrapNext = true := by
  refine ⟨rfl, rfl, rfl, rfl, by decide, rfl, by decide⟩

/-- C7 (amended): with reverse wraparound and auto wrap enabled and
well-formed margins, a backspace at the left margin on the top margin
row moves the cursor to the bottom-right corner of the scroll region;
at the left margin on any other row with positive y it moves to the
right margin of the previous row; and in the last column with a wrap
pending, when the cursor is strictly right of the left margin, it
cancels the pending wrap and changes nothing else. -/
theorem c7_backspace_reverse_wraparound (st : BsState)
    (hrw : st.reverseWraparound = true) (haw : st.autoWrap = true)
    (hlr : st.lrStart < st.lrEnd) (hlw : st.lrEnd ≤ st.width)
    (htb0 : 0 ≤ st.tbStart) (htb : st.tbStart < st.tbEnd)
    (hth : st.tbEnd ≤ st.height) :
    (st.cursorX = st.lrStart → st.cursorY = st.tbStart →
      (bsBackspace st).cursorX = st.lrEnd - 1 ∧
      (bsBackspace st).cursorY = st.tbEnd - 1) ∧
    (st.cursorX ≤ st.lrStart → ¬(st.cursorX = st.lrStart ∧ st.cursorY = st.tbStart) →
      0 < st.cursorY → st.cursorY < st.height →
      (bsBackspace st).cursorX = st.lrEnd - 1 ∧
      (bsBackspace st).cursorY = st.cursorY - 1) ∧
    (st.cursorX = st.lrEnd - 1 → st.wrapNext = true → st.lrStart < st.cursorX →
      bsBackspace st = { st with wrapNext := false }) := by
  refine ⟨?_, ?_, ?_⟩
  · intro hx hy
    unfold bsBackspace
    rw [if_pos (by simp [hrw, haw, hx, hy])]
    unfold bsSetCursorPos clampInt
    refine ⟨?_, ?_⟩
    · simp only
      omega
    · simp only
      omega
  · intro hx hnot hy0 hyh
    unfold bsBackspace
    rw [@if_neg (_ = true) _ ?hc1 _ _ _, if_pos (by simp [hrw, haw, hx])]
    case hc1 =>
      by_cases hxeq : st.cursorX = st.lrStart
      · have hyne : st.cursorY ≠ st.tbStart := fun h => hnot ⟨hxeq, h⟩
        simp [hrw, haw, hxeq, hyne]
      · simp [hxeq]
    unfold bsSetCursorPos clampInt
    refine ⟨?_, ?_⟩
    · simp only
      omega
    · simp only
      omega
  · intro hx hw hgt
    unfold bsBackspace
    have hx2 : ¬(st.cursorX ≤ st.lrStart) := by omega
    rw [if_neg (by simp [hx2]; omega), if_neg (by simp [hx2]),
      if_pos (by simp [hrw, haw, hx, hw])]

/-- Witness for C7 (amended): a concrete 4x3 screen with margins
1..4 x 0..3, cursor in the last column (x=3) with wrap pending:
backspace cancels the wrap and moves nothing. -/
theorem c7_backspace_reverse_wraparound_witness :
    (let st : BsState :=
      { cursorX := 3, cursorY := 1, wrapNext := true,
        reverseWraparound := true, autoWrap := true,
        lrStart := 1, lrEnd := 4, tbStart := 0, tbEnd := 3,
        width := 4, height := 3 }
     bsBackspace st = { st with wrapNext := false }) := by
  exact (c7_backspace_reverse_wraparound _ rfl rfl (by decide) (by decide)
    (by decide) (by decide) (by decide)).2.2 rfl rfl (by decide)

/-- C4: a full reset restores every mutable field — pen, cursor, all
mode flags, charsets, tab stops, colour map, margins, keyboard stack —
ends on the primary screen with default pen and cursor at (0,0),
erases the scrollback, and the screen-op trace erases the alternate
screen buffer exactly once (whether or not the alternate screen was
active when the reset arrived) before returning to the primary
screen. -/
theorem c4_full_reset (st : TermStateFull) (ucfg : Nat) :
    let r := fullReset st ucfg
    r.1.pen = CellAttributes.default ∧
    r.1.cursorX = 0 ∧ r.1.cursorY = 0 ∧
    r.1.wrapNext = false ∧
    r.1.clearSemanticAttributeOnNewline = false ∧
    r.1.insert = false ∧
    r.1.decAutoWrap = true ∧
    r.1.reverseWraparound = false ∧
    r.1.reverseVideo = false ∧
    r.1.decOriginMode = false ∧
    r.1.usePrivateColorRegistersForEachGraphic = false ∧
    r.1.colorMap = defaultColorMap ∧
    r.1.applicationCursorKeys = false ∧
    r.1.sixelDisplayMode = false ∧
    r.1.decAnsiMode = false ∧
    r.1.applicationKeypad = false ∧
    r.1.bracketedPaste = false ∧
    r.1.focusTracking = false ∧
    r.1.mouseTracking = false ∧
    r.1.mouseEncoding = MouseEncoding.x10 ∧
    r.1.keyboardEncoding = KeyboardEncoding.xterm ∧
    r.1.sixelScrollsRight = false ∧
    r.1.anyEventMouse = false ∧
    r.1.buttonEventMouse = false ∧
    r.1.currentMouseButtons = [] ∧
    r.1.cursorVisible = true ∧
    r.1.g0Charset = CharSet.ascii ∧
    r.1.g1Charset = CharSet.ascii ∧
    r.1.shiftOut = false ∧
    r.1.newlineMode = false ∧
    r.1.tabs = TabStop.new st.physicalCols 8 ∧
    r.1.palette = none ∧
    r.1.tbMarginStart = 0 ∧ r.1.tbMarginEnd = (st.physicalRows : Int) ∧
    r.1.lrMarginStart = 0 ∧ r.1.lrMarginEnd = st.physicalCols ∧
    r.1.unicodeVersion = ucfg ∧
    r.1.suppressInitialTitleChange = false ∧
    r.1.accumulatingTitle = none ∧
    r.1.keyboardStack = [] ∧
    r.1.altScreenIsActive = false ∧
    (∀ altWasActive : Bool, countAltErases r.2 altWasActive = 1) ∧
    (∀ altWasActive : Bool, finalAltActive r.2 altWasActive = false) ∧
    ScreenOp.eraseScrollback ∈ r.2 := by
  refine ⟨rfl, rfl, rfl, rfl, rfl, rfl, rfl, rfl, rfl, rfl, rfl, rfl, rfl, rfl,
    rfl, rfl, rfl, rfl, rfl, rfl, rfl, rfl, rfl, rfl, rfl, rfl, rfl, rfl, rfl,
    rfl, rfl, rfl, rfl, rfl, rfl, rfl, rfl, rfl, rfl, rfl, rfl, ?_, ?_, ?_⟩
  · intro b; cases b <;> rfl
  · intro b; cases b <;> rfl
  · simp [fullReset]

/-- Feeding a concatenation is feeding the pieces in sequence with the
state carried over. -/
theorem vtFeed_append (m : VTMode) (xs ys : List Byte) :
    vtFeed m (xs ++ ys) =
      ((vtFeed (vtFeed m xs).1 ys).1,
       (vtFeed m xs).2 ++ (vtFeed (vtFeed m xs).1 ys).2) := by
  induction xs generalizing m with
  | nil => simp [vtFeed]
  | cons b rest ih =>
    simp only [List.cons_append, vtFeed, List.append_eq]
    rw [ih (vtStep m b).1]
    simp [List.append_assoc]

/-- C2: decoding a byte sequence in one call produces exactly the same
event stream as decoding it split at any byte boundary across two
successive calls on the same parser: the partial-sequence state is
carried over.  (Quantified over every byte sequence, hence in
particular over every valid escape/control sequence.) -/
theorem c2_parse_split_invariance (bytes : List Byte) (i : Nat) :
    (vtFeed .ground (bytes.take i)).2 ++
      (vtFeed (vtFeed .ground (bytes.take i)).1 (bytes.drop i)).2 =
    (vtFeed .ground bytes).2 := by
  have h := vtFeed_append .ground (bytes.take i) (bytes.drop i)
  rw [List.take_append_drop] at h
  rw [h]

/-! ## Lemmas for the diff round-trip (claim C1): blocks and visible
cells -/

theorem effW_pos (c : Cell) : 1 ≤ effW c :=
  Nat.le_max_right c.width 1

theorem effW_le_two (c : Cell) : effW c ≤ 2 := by
  have h : c.width ≤ 2 := by
    simp only [Cell.width, graphemeWidth]
    omega
  simp only [effW]
  omega

theorem width_sub_one_eq (c : Cell) : c.width - 1 = effW c - 1 := by
  simp only [effW]
  omega

theorem block_length (c : Cell) : (block c).length = effW c := by
  simp only [block, List.length_cons, List.length_replicate]
  have := effW_pos c
  omega

theorem blocksOf_nil : blocksOf [] = [] := rfl

theorem blocksOf_cons (c : Cell) (cs : List Cell) :
    blocksOf (c :: cs) = block c ++ blocksOf cs := by
  simp [blocksOf]

theorem blocksOf_append (xs ys : List Cell) :
    blocksOf (xs ++ ys) = blocksOf xs ++ blocksOf ys := by
  simp [blocksOf]

theorem blocksOf_cons_length (c : Cell) (cs : List Cell) :
    (blocksOf (c :: cs)).length = effW c + (blocksOf cs).length := by
  rw [blocksOf_cons, List.length_append, block_length]

theorem cellStarts_append (i : Nat) (xs ys : List Cell) :
    cellStarts i (xs ++ ys) =
      cellStarts i xs ++ cellStarts (i + (blocksOf xs).length) ys := by
  induction xs generalizing i with
  | nil => simp [cellStarts, blocksOf_nil]
  | cons c cs ih =>
    rw [List.cons_append]
    show (i, c) :: cellStarts (i + effW c) (cs ++ ys) =
      ((i, c) :: cellStarts (i + effW c) cs) ++
        cellStarts (i + (blocksOf (c :: cs)).length) ys
    rw [List.cons_append, ih (i + effW c), blocksOf_cons_length]
    have heq : i + effW c + (blocksOf cs).length = i + (effW c + (blocksOf cs).length) := by
      omega
    rw [heq]

theorem cellStarts_mem_bounds (i : Nat) (cs : List Cell) :
    ∀ q ∈ cellStarts i cs, i ≤ q.1 ∧ q.1 + effW q.2 ≤ i + (blocksOf cs).length := by
  induction cs generalizing i with
  | nil => simp [cellStarts]
  | cons c cs ih =>
    intro q hq
    simp only [cellStarts, List.mem_cons] at hq
    rcases hq with h | h
    · subst h
      show i ≤ i ∧ i + effW c ≤ i + (blocksOf (c :: cs)).length
      rw [blocksOf_cons_length]
      exact ⟨Nat.le_refl i, by omega⟩
    · have := ih (i + effW c) q h
      rw [blocksOf_cons_length]
      omega

theorem cellStarts_pairwise_gap (i : Nat) (cs : List Cell) :
    (cellStarts i cs).Pairwise (fun a b => a.1 + effW a.2 ≤ b.1) := by
  induction cs generalizing i with
  | nil => simp [cellStarts]
  | cons c cs ih =>
    simp only [cellStarts, List.pairwise_cons]
    refine ⟨?_, ih (i + effW c)⟩
    intro q hq
    exact (cellStarts_mem_bounds (i + effW c) cs q hq).1

/-- The visible-cell iteration over a truncated block layout yields
exactly the cells that start before the truncation boundary. -/
theorem visCellsAux_blocks (cs : List Cell) :
    ∀ (n i : Nat), visCellsAux ((blocksOf cs).take n) i =
      (cellStarts i cs).takeWhile (fun p => p.1 < i + n) := by
  induction cs with
  | nil => intro n i; simp [blocksOf_nil, visCellsAux, cellStarts]
  | cons c cs ih =>
    intro n i
    rw [blocksOf_cons]
    match n with
    | 0 =>
      simp [visCellsAux, cellStarts]
    | Nat.succ m =>
      rw [block]
      simp only [List.cons_append, List.take_succ_cons, visCellsAux]
      rw [List.drop_take, width_sub_one_eq,
        @List.drop_left' Slot (List.replicate (effW c - 1) Slot.pad) _ _ (by simp)]
      have hidx : i + 1 + (effW c - 1) = i + effW c := by
        have := effW_pos c
        omega
      rw [hidx, ih]
      simp only [cellStarts, List.takeWhile_cons]
      have hlt : decide (i < i + (m + 1)) = true := by simp
      rw [hlt, if_pos rfl]
      by_cases hm : effW c - 1 ≤ m
      · have harith : i + effW c + (m - (effW c - 1)) = i + (m + 1) := by
          have := effW_pos c
          omega
        rw [harith]
      · have hm0 : m - (effW c - 1) = 0 := by omega
        rw [hm0]
        cases cs with
        | nil => simp [cellStarts]
        | cons c2 cs2 =>
          simp only [cellStarts, List.takeWhile_cons]
          have h1 : ¬ (i + effW c < i + effW c + 0) := by omega
          have h2 : ¬ (i + effW c < i + (m + 1)) := by omega
          simp [h1, h2]

/-! ## Lemmas for the diff round-trip: the seek loop -/

/-- The peek loop of diff_line consumes exactly the visible cells
strictly left of the sought position and reports the cell starting
there, if any. -/
theorem seekComparison_eq (l : List (Nat × Cell)) (p : Nat) :
    seekComparison l 0 p = (l.dropWhile (fun q => q.1 < p), findAtP l p) := by
  induction l with
  | nil => simp [seekComparison, findAtP, List.dropWhile]
  | cons q rest ih =>
    obtain ⟨i, c⟩ := q
    simp only [seekComparison, Nat.sub_zero]
    by_cases h1 : i = p
    · subst h1
      have hnlt : ¬ (i < i) := by omega
      simp [List.dropWhile_cons, hnlt, findAtP]
    · by_cases h2 : p < i
      · have hnlt : ¬ (i < p) := by omega
        simp only [h1, h2, if_pos, if_neg, if_false]
        simp [List.dropWhile_cons, hnlt, findAtP, h1]
      · have hlt : i < p := by omega
        simp only [h1, h2, if_neg, if_false]
        rw [ih]
        have : List.dropWhile (fun q => decide (q.1 < p)) ((i, c) :: rest) =
            List.dropWhile (fun q => decide (q.1 < p)) rest := by
          simp [List.dropWhile_cons, hlt]
        rw [this]
        congr 1
        simp [findAtP, List.dropWhile_cons, hlt]

/-- Re-seeking from an already sought suffix gives the same result. -/
theorem dropWhile_lt_twice (l : List (Nat × Cell)) (r p : Nat) (h : r ≤ p) :
    (l.dropWhile (fun q => q.1 < r)).dropWhile (fun q => q.1 < p) =
      l.dropWhile (fun q => q.1 < p) := by
  induction l with
  | nil => simp
  | cons q rest ih =>
    by_cases hq : q.1 < r
    · have hp : q.1 < p := by omega
      simp [List.dropWhile_cons, hq, hp, ih]
    · simp [List.dropWhile_cons, hq]

theorem findAtP_dropWhile (l : List (Nat × Cell)) (r p : Nat) (h : r ≤ p) :
    findAtP (l.dropWhile (fun q => q.1 < r)) p = findAtP l p := by
  simp only [findAtP, dropWhile_lt_twice l r p h]

theorem takeWhile_append_all {α : Type} (p : α → Bool) (u v : List α)
    (h : ∀ x ∈ u, p x = true) :
    (u ++ v).takeWhile p = u ++ v.takeWhile p := by
  induction u with
  | nil => simp
  | cons a u ih =>
    have ha := h a (List.mem_cons_self a u)
    simp only [List.cons_append, List.takeWhile_cons, ha, if_pos]
    rw [ih (fun x hx => h x (List.mem_cons_of_mem a hx))]

theorem dropWhile_append_all {α : Type} (p : α → Bool) (u v : List α)
    (h : ∀ x ∈ u, p x = true) :
    (u ++ v).dropWhile p = v.dropWhile p := by
  induction u with
  | nil => simp
  | cons a u ih =>
    have ha := h a (List.mem_cons_self a u)
    simp only [List.cons_append, List.dropWhile_cons, ha, if_pos]
    exact ih (fun x hx => h x (List.mem_cons_of_mem a hx))

/-- Every visible cell of a fully consumed prefix lies strictly left
of the position just past that prefix. -/
theorem cellStarts_mem_lt (cs : List Cell) (q : Nat × Cell)
    (hq : q ∈ cellStarts 0 cs) : q.1 < (blocksOf cs).length := by
  have := (cellStarts_mem_bounds 0 cs q hq).2
  have := effW_pos q.2
  omega

/-- Seeking at a position where the old line has a cell finds it. -/
theorem findAtP_found (csAc : List Cell) (cA : Cell) (csAr : List Cell)
    (W p : Nat) (hp : (blocksOf csAc).length = p) (hpW : p < W) :
    findAtP (((cellStarts 0 (csAc ++ cA :: csAr)).takeWhile
      (fun q => q.1 < W)) : List (Nat × Cell)) p = some cA := by
  rw [cellStarts_append, hp]
  rw [takeWhile_append_all _ _ _ (fun x hx => by
    have := cellStarts_mem_lt csAc x hx
    rw [hp] at this
    simp only [decide_eq_true_eq]
    omega)]
  simp only [findAtP]
  rw [dropWhile_append_all _ _ _ (fun x hx => by
    have := cellStarts_mem_lt csAc x hx
    rw [hp] at this
    simp only [decide_eq_true_eq]
    omega)]
  simp only [cellStarts, Nat.zero_add]
  have hnlt : ¬ (p < p) := by omega
  simp [List.takeWhile_cons, hpW, List.dropWhile_cons, hnlt]

/-- Seeking past the end of the old line finds nothing. -/
theorem findAtP_end (csAc : List Cell) (W p : Nat)
    (hp : (blocksOf csAc).length ≤ p) :
    findAtP (((cellStarts 0 csAc).takeWhile
      (fun q => q.1 < W)) : List (Nat × Cell)) p = none := by
  simp only [findAtP]
  rw [List.dropWhile_eq_nil_iff.mpr]
  intro x hx
  have hx2 := List.takeWhile_subset _ hx
  have := cellStarts_mem_lt csAc x hx2
  simp only [decide_eq_true_eq]
  omega

/-- If no visible cell starts at the sought position, the seek finds
nothing. -/
theorem findAtP_none_of_ne (l : List (Nat × Cell)) (p : Nat)
    (h : ∀ q ∈ l, q.1 ≠ p) : findAtP l p = none := by
  simp only [findAtP]
  cases hd : l.dropWhile (fun q => decide (q.1 < p)) with
  | nil => rfl
  | cons q rest =>
    obtain ⟨i, c⟩ := q
    have hmem : (i, c) ∈ l := by
      have hsub := @List.dropWhile_sublist (Nat × Cell) l (fun q => decide (q.1 < p))
      rw [hd] at hsub
      exact hsub.subset (List.mem_cons_self _ _)
    have hne := h (i, c) hmem
    simp only
    rw [if_neg hne]

/-- Seeking at the second column of a wide cell finds nothing: the old
line has no visible cell starting there. -/
theorem findAtP_mid (csAc : List Cell) (cw : Cell) (csAr : List Cell)
    (W p : Nat) (hw : effW cw = 2) (hp : (blocksOf csAc).length + 1 = p) :
    findAtP (((cellStarts 0 (csAc ++ cw :: csAr)).takeWhile
      (fun q => q.1 < W)) : List (Nat × Cell)) p = none := by
  apply findAtP_none_of_ne
  intro q hq
  have hq2 := List.takeWhile_subset _ hq
  rw [cellStarts_append] at hq2
  rcases List.mem_append.mp hq2 with h | h
  · have := cellStarts_mem_lt csAc q h
    omega
  · simp only [cellStarts, List.mem_cons, Nat.zero_add] at h
    rcases h with h | h
    · rw [h]
      omega
    · have := (cellStarts_mem_bounds ((blocksOf csAc).length + effW cw) csAr q h).1
      omega

/-! ## Lemmas for the diff round-trip: set_cell on the physical
storage -/

theorem getD_append_add {α : Type} (pre l : List α) (k : Nat) (d : α) :
    (pre ++ l).getD (pre.length + k) d = l.getD k d := by
  induction pre with
  | nil => simp
  | cons a pre ih =>
    simp only [List.cons_append, List.length_cons]
    have h : pre.length + 1 + k = (pre.length + k) + 1 := by omega
    rw [h]
    show (pre ++ l).getD (pre.length + k) d = l.getD k d
    exact ih

theorem set_append_add {α : Type} (pre l : List α) (k : Nat) (v : α) :
    (pre ++ l).set (pre.length + k) v = pre ++ l.set k v := by
  induction pre with
  | nil => simp
  | cons a pre ih =>
    simp only [List.cons_append, List.length_cons]
    have h : pre.length + 1 + k = (pre.length + k) + 1 := by omega
    rw [h]
    show a :: (pre ++ l).set (pre.length + k) v = a :: (pre ++ l.set k v)
    rw [ih]

/-- What set_cell does to a line decomposed around the write position,
when the target slot is not a placeholder: the new cell's block is laid
down (truncated at the end of the line) and a placeholder orphaned
just past the write is blanked. -/
theorem setCellSlots_eq (pre : List Slot) (s : Slot) (t : List Slot) (c : Cell)
    (hs : s ≠ Slot.pad) :
    setCellSlots (pre ++ s :: t) pre.length c =
      pre ++ (block c).take (s :: t).length ++ padFix ((s :: t).drop (effW c)) := by
  have he12 : effW c = 1 ∨ effW c = 2 := by
    have := effW_pos c
    have := effW_le_two c
    omega
  have hgetD0 : (pre ++ s :: t).getD pre.length blankSlot = s := by
    have h := getD_append_add pre (s :: t) 0 blankSlot
    simpa using h
  have hset0 : (pre ++ s :: t).set pre.length (Slot.cell c) = pre ++ Slot.cell c :: t := by
    have h := set_append_add pre (s :: t) 0 (Slot.cell c)
    simpa using h
  simp only [setCellSlots, hgetD0, hs, if_neg, if_false, hset0]
  rcases he12 with he | he
  · rw [he, if_neg (by decide : ¬ (1 : Nat) = 2)]
    have hblock : (block c).take (s :: t).length = [Slot.cell c] := by
      simp only [block, he]
      simp [List.length_cons]
    rw [hblock]
    cases t with
    | nil =>
      have hget1 : (pre ++ [Slot.cell c]).getD (pre.length + 1) blankSlot = blankSlot := by
        have h := getD_append_add pre [Slot.cell c] 1 blankSlot
        simpa using h
      rw [hget1, if_neg (by simp [blankSlot])]
      simp [padFix]
    | cons u t' =>
      have hget1 : (pre ++ Slot.cell c :: u :: t').getD (pre.length + 1) blankSlot = u := by
        have h := getD_append_add pre (Slot.cell c :: u :: t') 1 blankSlot
        simpa using h
      rw [hget1]
      cases u with
      | pad =>
        rw [if_pos rfl]
        have hset1 : (pre ++ Slot.cell c :: Slot.pad :: t').set (pre.length + 1) blankSlot =
            pre ++ Slot.cell c :: blankSlot :: t' := by
          have h := set_append_add pre (Slot.cell c :: Slot.pad :: t') 1 blankSlot
          simpa using h
        rw [hset1]
        simp [padFix]
      | cell x =>
        rw [if_neg (by simp)]
        simp [padFix]
  · rw [he, if_pos rfl]
    cases t with
    | nil =>
      have hset1 : (pre ++ Slot.cell c :: []).set (pre.length + 1) Slot.pad =
          pre ++ [Slot.cell c] := by
        have h := set_append_add pre [Slot.cell c] 1 Slot.pad
        simpa using h
      rw [hset1]
      have hget2 : (pre ++ [Slot.cell c]).getD (pre.length + 2) blankSlot = blankSlot := by
        have h := getD_append_add pre [Slot.cell c] 2 blankSlot
        simpa using h
      rw [hget2, if_neg (by simp [blankSlot])]
      have hblock : (block c).take 1 = [Slot.cell c] := by
        simp [block]
      simp [padFix, hblock]
    | cons u t' =>
      have hset1 : (pre ++ Slot.cell c :: u :: t').set (pre.length + 1) Slot.pad =
          pre ++ Slot.cell c :: Slot.pad :: t' := by
        have h := set_append_add pre (Slot.cell c :: u :: t') 1 Slot.pad
        simpa using h
      rw [hset1]
      have hblock : (block c).take (s :: u :: t').length = [Slot.cell c, Slot.pad] := by
        simp only [block, he]
        simp [List.length_cons]
      rw [hblock]
      cases t' with
      | nil =>
        have hget2 : (pre ++ Slot.cell c :: Slot.pad :: []).getD (pre.length + 2) blankSlot =
            blankSlot := by
          have h := getD_append_add pre (Slot.cell c :: Slot.pad :: []) 2 blankSlot
          simpa using h
        rw [hget2, if_neg (by simp [blankSlot])]
        simp [padFix]
      | cons v t'' =>
        have hget2 : (pre ++ Slot.cell c :: Slot.pad :: v :: t'').getD
            (pre.length + 2) blankSlot = v := by
          have h := getD_append_add pre (Slot.cell c :: Slot.pad :: v :: t'') 2 blankSlot
          simpa using h
        rw [hget2]
        cases v with
        | pad =>
          rw [if_pos rfl]
          have hset2 : (pre ++ Slot.cell c :: Slot.pad :: Slot.pad :: t'').set
              (pre.length + 2) blankSlot =
              pre ++ Slot.cell c :: Slot.pad :: blankSlot :: t'' := by
            have h := set_append_add pre (Slot.cell c :: Slot.pad :: Slot.pad :: t'') 2 blankSlot
            simpa using h
          rw [hset2]
          simp [padFix]
        | cell x =>
          rw [if_neg (by simp)]
          simp [padFix]

/-! ## Lemmas for the diff round-trip: one write inside a row -/

theorem padFix_blocksOf (cs : List Cell) : padFix (blocksOf cs) = blocksOf cs := by
  cases cs with
  | nil => rfl
  | cons c cs => rw [blocksOf_cons, block]; rfl

theorem padFix_take (l : List Slot) (n : Nat) :
    padFix (l.take n) = (padFix l).take n := by
  cases l with
  | nil => simp [padFix]
  | cons s t =>
    cases n with
    | zero => cases s <;> simp [padFix]
    | succ m => cases s <;> simp [padFix]

theorem takeWhile_starts_nil (cs : List Cell) (i W : Nat) (h : W ≤ i) :
    (cellStarts i cs).takeWhile (fun q => q.1 < W) = [] := by
  cases cs with
  | nil => simp [cellStarts]
  | cons c cs =>
    simp only [cellStarts, List.takeWhile_cons]
    have : ¬ (i < W) := by omega
    simp [this]

theorem dropWhile_lt_zero (l : List (Nat × Cell)) :
    l.dropWhile (fun q => q.1 < 0) = l := by
  cases l with
  | nil => rfl
  | cons q rest => simp [List.dropWhile_cons]

/-- Performing one write at position p on the current row state lays
down the written cell's block and blanks an orphaned placeholder just
past it, everything truncated at the width. -/
theorem write_step (pre : List Slot) (s : Slot) (t : List Slot) (oc : Cell) (W : Nat)
    (hs : s ≠ Slot.pad) (hpW : pre.length < W) (hlen : W - pre.length ≤ (s :: t).length) :
    setCellSlots ((pre ++ s :: t).take W) pre.length oc =
      (pre ++ block oc ++ padFix ((s :: t).drop (effW oc))).take W := by
  have hsplit : (pre ++ s :: t).take W = pre ++ s :: t.take (W - pre.length - 1) := by
    rw [List.take_append_eq_append_take, List.take_of_length_le (by omega)]
    congr 1
    have h1 : W - pre.length = (W - pre.length - 1) + 1 := by omega
    rw [h1]
    rfl
  rw [hsplit, setCellSlots_eq pre s (t.take (W - pre.length - 1)) oc hs]
  have hlen2 : (s :: t.take (W - pre.length - 1)).length = W - pre.length := by
    simp only [List.length_cons, List.length_take]
    simp only [List.length_cons] at hlen
    omega
  rw [hlen2]
  have hdrop : (s :: t.take (W - pre.length - 1)).drop (effW oc) =
      ((s :: t).drop (effW oc)).take (W - pre.length - effW oc) := by
    have h1 : s :: t.take (W - pre.length - 1) = (s :: t).take (W - pre.length) := by
      have h2 : W - pre.length = (W - pre.length - 1) + 1 := by omega
      rw [h2]
      rfl
    rw [h1, List.drop_take]
  rw [hdrop, padFix_take]
  have h1 : (pre ++ block oc ++ padFix ((s :: t).drop (effW oc))).take W =
      (pre ++ block oc).take W ++
        (padFix ((s :: t).drop (effW oc))).take (W - (pre ++ block oc).length) := by
    rw [List.take_append_eq_append_take]
  have h2 : (pre ++ block oc).take W = pre ++ (block oc).take (W - pre.length) := by
    rw [List.take_append_eq_append_take,
      List.take_of_length_le (show pre.length ≤ W by omega)]
  have h3 : W - (pre ++ block oc).length = W - pre.length - effW oc := by
    rw [List.length_append, block_length]
    omega
  rw [h1, h2, h3, List.append_assoc]

/-- The unwritten-tail relation determines the length of the tail. -/
theorem restRel_length (csA : List Cell) (p : Nat) (restPart : List Slot)
    (hrel : RestRel csA p restPart) :
    p + restPart.length = (blocksOf csA).length := by
  rcases hrel with ⟨csAc, csAr, hsplit, hlen, hrp⟩ | ⟨csAc, csAr, cw, hsplit, hw, hlen, hrp⟩
  · subst hsplit hrp
    rw [blocksOf_append, List.length_append]
    omega
  · subst hsplit hrp
    rw [blocksOf_append, List.length_append, blocksOf_cons, List.length_append,
      block_length, hw]
    simp only [List.length_cons]
    omega

/-- The unwritten tail never begins with a placeholder. -/
theorem restRel_head (csA : List Cell) (p W : Nat) (restPart : List Slot)
    (hrel : RestRel csA p restPart) (hpW : p < W) (hA : W ≤ (blocksOf csA).length) :
    ∃ st tt, restPart = st :: tt ∧ st ≠ Slot.pad := by
  have hlen := restRel_length csA p restPart hrel
  rcases hrel with ⟨csAc, csAr, hsplit, hlc, hrp⟩ | ⟨csAc, csAr, cw, hsplit, hw, hlc, hrp⟩
  · cases csAr with
    | nil =>
      exfalso
      subst hrp
      simp only [blocksOf_nil, List.length_nil] at hlen
      omega
    | cons cA csAr2 =>
      subst hrp
      rw [blocksOf_cons, block]
      exact ⟨Slot.cell cA, _, rfl, by simp⟩
  · subst hrp
    exact ⟨blankSlot, blocksOf csAr, rfl, by simp [blankSlot]⟩

theorem blocksOf_cons_one (cA : Cell) (cs : List Cell) (h : effW cA = 1) :
    blocksOf (cA :: cs) = Slot.cell cA :: blocksOf cs := by
  rw [blocksOf_cons, block, h]
  rfl

theorem blocksOf_cons_two (cA : Cell) (cs : List Cell) (h : effW cA = 2) :
    blocksOf (cA :: cs) = Slot.cell cA :: Slot.pad :: blocksOf cs := by
  rw [blocksOf_cons, block, h]
  rfl

theorem blocksOf_snoc_length (cs : List Cell) (c : Cell) :
    (blocksOf (cs ++ [c])).length = (blocksOf cs).length + effW c := by
  rw [blocksOf_append, List.length_append, blocksOf_cons, blocksOf_nil,
    List.append_nil, block_length]

/-- After a write of footprint e at position p, the unwritten-tail
relation holds at position p + e for the tail with the write's
footprint removed and an orphaned placeholder blanked. -/
theorem restRel_step (W : Nat) (csA : List Cell) (p : Nat) (restPart : List Slot)
    (oc : Cell) (hrel : RestRel csA p restPart) (hA : W ≤ (blocksOf csA).length)
    (hfits : p + effW oc ≤ W) :
    RestRel csA (p + effW oc) (padFix (restPart.drop (effW oc))) := by
  have he12 : effW oc = 1 ∨ effW oc = 2 := by
    have := effW_pos oc
    have := effW_le_two oc
    omega
  have hlenr := restRel_length csA p restPart hrel
  have hepos := effW_pos oc
  rcases hrel with ⟨csAc, csAr, hsplit, hlc, hrp⟩ | ⟨csAc, csAr, cw, hsplit, hw, hlc, hrp⟩
  · cases csAr with
    | nil =>
      exfalso
      subst hrp
      simp only [blocksOf_nil, List.length_nil] at hlenr
      omega
    | cons cA csAr2 =>
      have heA12 : effW cA = 1 ∨ effW cA = 2 := by
        have := effW_pos cA
        have := effW_le_two cA
        omega
      subst hrp
      rcases he12 with he | he <;> rcases heA12 with heA | heA
      · -- e = 1, eA = 1: the written cell replaces exactly one block
        rw [he, blocksOf_cons_one cA csAr2 heA]
        simp only [List.drop_succ_cons, List.drop_zero, padFix_blocksOf]
        exact Or.inl ⟨csAc ++ [cA], csAr2, by rw [hsplit, List.append_assoc]; rfl,
          by rw [blocksOf_snoc_length, hlc, heA], rfl⟩
      · -- e = 1, eA = 2: the write splits a wide cell, leaving an
        -- orphaned placeholder that is blanked
        rw [he, blocksOf_cons_two cA csAr2 heA]
        simp only [List.drop_succ_cons, List.drop_zero]
        refine Or.inr ⟨csAc, csAr2, cA, hsplit, heA, by omega, ?_⟩
        rfl
      · -- e = 2, eA = 1: the write also covers the start of the next
        -- old block
        rw [he, blocksOf_cons_one cA csAr2 heA]
        cases csAr2 with
        | nil =>
          exfalso
          rw [blocksOf_cons_one cA [] heA] at hlenr
          simp only [blocksOf_nil, List.length_cons, List.length_nil] at hlenr
          omega
        | cons cA2 csAr3 =>
          have heA2 : effW cA2 = 1 ∨ effW cA2 = 2 := by
            have := effW_pos cA2
            have := effW_le_two cA2
            omega
          rcases heA2 with heA2 | heA2
          · rw [blocksOf_cons_one cA2 csAr3 heA2]
            simp only [List.drop_succ_cons, List.drop_zero, padFix_blocksOf]
            refine Or.inl ⟨csAc ++ [cA, cA2], csAr3, ?_, ?_, rfl⟩
            · rw [hsplit]
              simp
            · rw [blocksOf_append, List.length_append, hlc]
              rw [blocksOf_cons_one cA [cA2] heA, blocksOf_cons_one cA2 [] heA2]
              simp only [blocksOf_nil, List.length_cons, List.length_nil]
          · rw [blocksOf_cons_two cA2 csAr3 heA2]
            simp only [List.drop_succ_cons, List.drop_zero]
            refine Or.inr ⟨csAc ++ [cA], csAr3, cA2, ?_, heA2, ?_, rfl⟩
            · rw [hsplit]
              simp
            · rw [blocksOf_snoc_length, hlc, heA]
      · -- e = 2, eA = 2: the written wide cell replaces an old wide cell
        rw [he, blocksOf_cons_two cA csAr2 heA]
        simp only [List.drop_succ_cons, List.drop_zero, padFix_blocksOf]
        exact Or.inl ⟨csAc ++ [cA], csAr2, by rw [hsplit, List.append_assoc]; rfl,
          by rw [blocksOf_snoc_length, hlc, heA], rfl⟩
  · subst hrp
    rcases he12 with he | he
    · -- e = 1: the write fills the blanked placeholder column
      rw [he]
      simp only [List.drop_succ_cons, List.drop_zero, padFix_blocksOf]
      refine Or.inl ⟨csAc ++ [cw], csAr, ?_, ?_, rfl⟩
      · rw [hsplit]
        simp
      · rw [blocksOf_snoc_length, hw]
        omega
    · -- e = 2: the write covers the blanked column and the next block
      rw [he]
      simp only [List.drop_succ_cons, List.drop_zero]
      cases csAr with
      | nil =>
        exfalso
        simp only [blocksOf_nil, List.length_cons, List.length_nil] at hlenr
        omega
      | cons cA2 csAr3 =>
        have heA2 : effW cA2 = 1 ∨ effW cA2 = 2 := by
          have := effW_pos cA2
          have := effW_le_two cA2
          omega
        rcases heA2 with heA2 | heA2
        · rw [blocksOf_cons_one cA2 csAr3 heA2]
          simp only [List.drop_succ_cons, List.drop_zero, padFix_blocksOf]
          refine Or.inl ⟨csAc ++ [cw, cA2], csAr3, ?_, ?_, rfl⟩
          · rw [hsplit]
            simp
          · rw [blocksOf_append, List.length_append,
              blocksOf_cons_two cw [cA2] hw, blocksOf_cons_one cA2 [] heA2]
            simp only [blocksOf_nil, List.length_cons, List.length_nil]
            omega
        · rw [blocksOf_cons_two cA2 csAr3 heA2]
          simp only [List.drop_succ_cons, List.drop_zero]
          refine Or.inr ⟨csAc ++ [cw], csAr3, cA2, ?_, heA2, ?_, rfl⟩
          · rw [hsplit]
            simp
          · rw [blocksOf_snoc_length, hw]
            omega

theorem blocksOf_singleton (c : Cell) : blocksOf [c] = block c := by
  simp [blocksOf]

/-! ## Lemmas for the diff round-trip: one row is rewritten to the
target row -/

theorem rowWritesGo_nil (x otherX : Nat) (cells : List (Nat × Cell)) :
    rowWritesGo x otherX cells [] = [] := rfl

theorem rowWritesGo_cons_some (x otherX oi : Nat) (oc cc : Cell)
    (rest cells rem : List (Nat × Cell))
    (h : seekComparison cells x (oi - otherX) = (rem, some cc)) :
    rowWritesGo x otherX cells ((oi, oc) :: rest) =
      (if cc = oc then [] else [(x + (oi - otherX), oc)]) ++
        rowWritesGo x otherX rem rest := by
  simp only [rowWritesGo, h]

theorem rowWritesGo_cons_none (x otherX oi : Nat) (oc : Cell)
    (rest cells rem : List (Nat × Cell))
    (h : seekComparison cells x (oi - otherX) = (rem, none)) :
    rowWritesGo x otherX cells ((oi, oc) :: rest) =
      (x + (oi - otherX), oc) :: rowWritesGo x otherX rem rest := by
  simp only [rowWritesGo, h]

/-- The write case of the row induction: whether the comparison cell
differed or was absent, the next target cell is written at position p
and the rewrite continues. -/
theorem rowWrite_case (W : Nat) (csA : List Cell) (hA : W ≤ (blocksOf csA).length)
    (oc : Cell) (csBr2 csBc : List Cell) (p : Nat) (restPart : List Slot)
    (ih : ∀ (csBc : List Cell) (p r : Nat) (restPart : List Slot),
      (blocksOf csBc).length = p →
      W ≤ p + (blocksOf csBr2).length →
      r ≤ p →
      RestRel csA p restPart →
      applyRowWrites ((blocksOf csBc ++ restPart).take W)
        (rowWritesGo 0 0
          (((cellStarts 0 csA).takeWhile (fun q => q.1 < W)).dropWhile
            (fun q => q.1 < r))
          ((cellStarts p csBr2).takeWhile (fun q => q.1 < W)))
        = (blocksOf csBc ++ blocksOf csBr2).take W)
    (hp : (blocksOf csBc).length = p)
    (hB : W ≤ p + (blocksOf (oc :: csBr2)).length)
    (hpW : p < W)
    (hrel : RestRel csA p restPart) :
    applyRowWrites ((blocksOf csBc ++ restPart).take W)
      ((p, oc) :: rowWritesGo 0 0
        (((cellStarts 0 csA).takeWhile (fun q => q.1 < W)).dropWhile
          (fun q => q.1 < p))
        ((cellStarts (p + effW oc) csBr2).takeWhile (fun q => q.1 < W)))
      = (blocksOf csBc ++ blocksOf (oc :: csBr2)).take W := by
  have hlenr := restRel_length csA p restPart hrel
  obtain ⟨st, tt, hrest, hst⟩ := restRel_head csA p W restPart hrel hpW hA
  simp only [applyRowWrites, List.foldl_cons]
  have hw1 : setCellSlots ((blocksOf csBc ++ restPart).take W) p oc =
      (blocksOf (csBc ++ [oc]) ++ padFix (restPart.drop (effW oc))).take W := by
    rw [hrest, ← hp]
    have hlen : W - (blocksOf csBc).length ≤ (st :: tt).length := by
      rw [hrest] at hlenr
      simp only [List.length_cons] at hlenr ⊢
      omega
    rw [write_step (blocksOf csBc) st tt oc W hst (by omega) hlen]
    rw [blocksOf_append, blocksOf_singleton]
  have hrhs : blocksOf (csBc ++ [oc]) ++ blocksOf csBr2 =
      blocksOf csBc ++ blocksOf (oc :: csBr2) := by
    rw [blocksOf_append, blocksOf_singleton, blocksOf_cons, List.append_assoc]
  show List.foldl (fun s w => setCellSlots s w.1 w.2)
      (setCellSlots ((blocksOf csBc ++ restPart).take W) p oc)
      (rowWritesGo 0 0
        (((cellStarts 0 csA).takeWhile (fun q => q.1 < W)).dropWhile
          (fun q => q.1 < p))
        ((cellStarts (p + effW oc) csBr2).takeWhile (fun q => q.1 < W)))
      = (blocksOf csBc ++ blocksOf (oc :: csBr2)).take W
  rw [hw1]
  by_cases hfits : p + effW oc ≤ W
  · have hb2 : W ≤ (p + effW oc) + (blocksOf csBr2).length := by
      rw [blocksOf_cons_length] at hB
      omega
    have hrec := ih (csBc ++ [oc]) (p + effW oc) p (padFix (restPart.drop (effW oc)))
      (by rw [blocksOf_snoc_length, hp]) hb2 (by omega)
      (restRel_step W csA p restPart oc hrel hA hfits)
    simp only [applyRowWrites] at hrec
    rw [hrhs] at hrec
    exact hrec
  · rw [takeWhile_starts_nil csBr2 (p + effW oc) W (by omega), rowWritesGo_nil]
    simp only [List.foldl_nil]
    have hlen1 : W ≤ (blocksOf (csBc ++ [oc])).length := by
      rw [blocksOf_snoc_length, hp]
      omega
    rw [List.take_append_of_le_length hlen1, ← hrhs,
      List.take_append_of_le_length hlen1]

/-- The row induction: replaying the write decisions of the diff on
the partly rewritten row state produces the target row, truncated at
the width. -/
theorem rowAux (W : Nat) (csA : List Cell) (hA : W ≤ (blocksOf csA).length) :
    ∀ (csBr csBc : List Cell) (p r : Nat) (restPart : List Slot),
      (blocksOf csBc).length = p →
      W ≤ p + (blocksOf csBr).length →
      r ≤ p →
      RestRel csA p restPart →
      applyRowWrites ((blocksOf csBc ++ restPart).take W)
        (rowWritesGo 0 0
          (((cellStarts 0 csA).takeWhile (fun q => q.1 < W)).dropWhile
            (fun q => q.1 < r))
          ((cellStarts p csBr).takeWhile (fun q => q.1 < W)))
        = (blocksOf csBc ++ blocksOf csBr).take W := by
  intro csBr
  induction csBr with
  | nil =>
    intro csBc p r restPart hp hB hr hrel
    simp only [cellStarts, List.takeWhile_nil, rowWritesGo_nil]
    simp only [applyRowWrites, List.foldl_nil, blocksOf_nil, List.append_nil]
    have hWp : W ≤ (blocksOf csBc).length := by
      simp only [blocksOf_nil, List.length_nil, Nat.add_zero] at hB
      omega
    rw [List.take_append_of_le_length hWp]
  | cons oc csBr2 ih =>
    intro csBc p r restPart hp hB hr hrel
    by_cases hpW : p < W
    · simp only [cellStarts, List.takeWhile_cons]
      rw [if_pos (show decide ((p, oc).1 < W) = true by simp [hpW])]
      have hlenr := restRel_length csA p restPart hrel
      rcases hrel with ⟨csAc, csAr, hsplit, hlc, hrp⟩ |
        ⟨csAc, csAr, cw, hsplit, hw, hlc, hrp⟩
      · cases csAr with
        | nil =>
          exfalso
          subst hrp
          simp only [blocksOf_nil, List.length_nil, Nat.add_zero] at hlenr
          omega
        | cons cA csAr2 =>
          have hseek2 : seekComparison
              (((cellStarts 0 csA).takeWhile (fun q => q.1 < W)).dropWhile
                (fun q => q.1 < r)) 0 (p - 0) =
              (((cellStarts 0 csA).takeWhile (fun q => q.1 < W)).dropWhile
                (fun q => q.1 < p), some cA) := by
            rw [Nat.sub_zero, seekComparison_eq, dropWhile_lt_twice _ r p hr,
              findAtP_dropWhile _ r p hr]
            exact congrArg _ (by
              rw [hsplit]
              exact findAtP_found csAc cA csAr2 W p hlc hpW)
          rw [rowWritesGo_cons_some 0 0 p oc cA _ _ _ hseek2]
          by_cases hcc : cA = oc
          · subst hcc
            rw [if_pos rfl, List.nil_append]
            have hrest2 : blocksOf csBc ++ restPart =
                blocksOf (csBc ++ [cA]) ++ blocksOf csAr2 := by
              rw [hrp, blocksOf_append, blocksOf_singleton, blocksOf_cons,
                List.append_assoc]
            have hrhs : blocksOf csBc ++ blocksOf (cA :: csBr2) =
                blocksOf (csBc ++ [cA]) ++ blocksOf csBr2 := by
              rw [blocksOf_append, blocksOf_singleton, blocksOf_cons,
                List.append_assoc]
            rw [hrest2, hrhs]
            refine ih (csBc ++ [cA]) (p + effW cA) p (blocksOf csAr2) ?_ ?_ ?_ ?_
            · rw [blocksOf_snoc_length, hp]
            · rw [blocksOf_cons_length] at hB
              omega
            · omega
            · exact Or.inl ⟨csAc ++ [cA], csAr2,
                by rw [hsplit, List.append_assoc]; rfl,
                by rw [blocksOf_snoc_length, hlc], rfl⟩
          · rw [if_neg hcc]
            simp only [Nat.sub_zero, Nat.zero_add, List.singleton_append]
            exact rowWrite_case W csA hA oc csBr2 csBc p restPart ih hp hB hpW
              (Or.inl ⟨csAc, cA :: csAr2, hsplit, hlc, hrp⟩)
      · have hseek2 : seekComparison
            (((cellStarts 0 csA).takeWhile (fun q => q.1 < W)).dropWhile
              (fun q => q.1 < r)) 0 (p - 0) =
            (((cellStarts 0 csA).takeWhile (fun q => q.1 < W)).dropWhile
              (fun q => q.1 < p), none) := by
          rw [Nat.sub_zero, seekComparison_eq, dropWhile_lt_twice _ r p hr,
            findAtP_dropWhile _ r p hr]
          exact congrArg _ (by
            rw [hsplit]
            exact findAtP_mid csAc cw csAr W p hw hlc)
        rw [rowWritesGo_cons_none 0 0 p oc _ _ _ hseek2]
        simp only [Nat.sub_zero, Nat.zero_add]
        exact rowWrite_case W csA hA oc csBr2 csBc p restPart ih hp hB hpW
          (Or.inr ⟨csAc, csAr, cw, hsplit, hw, hlc, hrp⟩)
    · rw [takeWhile_starts_nil (oc :: csBr2) p W (by omega), rowWritesGo_nil]
      simp only [applyRowWrites, List.foldl_nil]
      have hWp : W ≤ (blocksOf csBc).length := by omega
      rw [List.take_append_of_le_length hWp, List.take_append_of_le_length hWp]

/-! ## Lemmas for the diff round-trip: the diff emits exactly the
write decisions -/

theorem diffLineGo_nil (row x otherX : Nat) (st : DiffState)
    (cells : List (Nat × Cell)) :
    diffLineGo row x otherX st cells [] = st := rfl

theorem diffLineGo_cons_some (row x otherX oi : Nat) (oc cc : Cell)
    (st : DiffState) (rest cells rem : List (Nat × Cell))
    (h : seekComparison cells x (oi - otherX) = (rem, some cc)) :
    diffLineGo row x otherX st cells ((oi, oc) :: rest) =
      diffLineGo row x otherX
        (st.diffCells (x + (oi - otherX)) row cc oc) rem rest := by
  simp only [diffLineGo, h]

theorem diffLineGo_cons_none (row x otherX oi : Nat) (oc : Cell)
    (st : DiffState) (rest cells rem : List (Nat × Cell))
    (h : seekComparison cells x (oi - otherX) = (rem, none)) :
    diffLineGo row x otherX st cells ((oi, oc) :: rest) =
      diffLineGo row x otherX
        (st.pushCell (x + (oi - otherX)) row oc) rem rest := by
  simp only [diffLineGo, h]

/-- The per-cell loop of diff_line produces exactly the DiffState fold
of its write decisions. -/
theorem diffLineGo_writes (row x otherX : Nat) :
    ∀ (otherCells : List (Nat × Cell)) (st : DiffState)
      (cells : List (Nat × Cell)),
      diffLineGo row x otherX st cells otherCells =
        (rowWritesGo x otherX cells otherCells).foldl
          (fun st w => st.pushCell w.1 row w.2) st := by
  intro otherCells
  induction otherCells with
  | nil =>
    intro st cells
    rw [diffLineGo_nil, rowWritesGo_nil]
    rfl
  | cons q rest ih =>
    obtain ⟨oi, oc⟩ := q
    intro st cells
    rcases hsk : seekComparison cells x (oi - otherX) with ⟨rem, comp⟩
    cases comp with
    | some cc =>
      rw [diffLineGo_cons_some row x otherX oi oc cc st rest cells rem hsk,
        rowWritesGo_cons_some x otherX oi oc cc rest cells rem hsk]
      simp only [DiffState.diffCells]
      by_cases hcc : cc = oc
      · rw [if_pos hcc, if_pos hcc, List.nil_append]
        exact ih _ rem
      · rw [if_neg hcc, if_neg hcc, List.singleton_append, List.foldl_cons]
        exact ih _ rem
    | none =>
      rw [diffLineGo_cons_none row x otherX oi oc st rest cells rem hsk,
        rowWritesGo_cons_none x otherX oi oc rest cells rem hsk,
        List.foldl_cons]
      exact ih _ rem

/-- diff_line over a full-width window produces exactly the DiffState
fold of the row's write decisions. -/
theorem diffLine_writes (st : DiffState) (line other : Line) (rowNum W : Nat) :
    diffLine st line rowNum other 0 W 0 =
      (rowWrites line other W).foldl
        (fun st w => st.pushCell w.1 rowNum w.2) st := by
  simp only [diffLine, rowWrites, dropWhile_lt_zero, Nat.zero_add]
  exact diffLineGo_writes rowNum 0 0 _ st _

/-- The row fold of diff_region produces exactly the DiffState fold of
the tagged write decisions of every row pair. -/
theorem foldl_pairs_writes (W : Nat) :
    ∀ (pairs : List ((Nat × Line) × Line)) (st : DiffState),
      pairs.foldl (fun st p => diffLine st p.1.2 p.1.1 p.2 0 W 0) st =
      encodeSt st ((pairs.map (fun p => (rowWrites p.1.2 p.2 W).map
        (fun q => CWrite.mk q.1 p.1.1 q.2))).flatten) := by
  intro pairs
  induction pairs with
  | nil => intro st; rfl
  | cons p rest ih =>
    intro st
    simp only [List.foldl_cons, List.map_cons, List.flatten_cons]
    rw [diffLine_writes st p.1.2 p.2 p.1.1 W, ih]
    simp only [encodeSt, List.foldl_append, List.foldl_map]

/-- diff_screens emits exactly the encoded write list. -/
theorem diffScreens_writes (s other : Surface) :
    s.diffScreens other =
      (encodeSt DiffState.init (allWrites s other)).changes := by
  simp only [Surface.diffScreens, Surface.diffRegion, List.drop_zero,
    Nat.zero_add, allWrites]
  rw [foldl_pairs_writes s.width _ DiffState.init]

/-! ## Lemmas for the diff round-trip: replaying the encoded changes
performs the writes -/

theorem applyNoLog_snoc (S : Surface) (u : List Change) (c : Change) :
    applyNoLog S (u ++ [c]) = (applyNoLog S u).applyChange c := by
  simp [applyNoLog, List.foldl_append]

theorem printText_snoc (s : Surface) (gs : List TextG) (tg : TextG) :
    s.printText (gs ++ [tg]) = (s.printText gs).printOne tg := by
  simp [Surface.printText, List.foldl_append]

theorem encodeSt_snoc (st : DiffState) (ws : List CWrite) (wr : CWrite) :
    encodeSt st (ws ++ [wr]) = (encodeSt st ws).pushCell wr.col wr.row wr.cell := by
  simp [encodeSt, List.foldl_append]

theorem applyWritesLines_snoc (l : List Line) (ws : List CWrite) (wr : CWrite) :
    applyWritesLines l (ws ++ [wr]) =
      listModify (applyWritesLines l ws) wr.row
        (fun ln => ln.setCell wr.col wr.cell) := by
  simp [applyWritesLines, List.foldl_append]

/-- Replaying a change list extended by the text coalescing of
DiffState::set_cell prints exactly one more glyph, whether the glyph
opened a fresh Text change or extended the trailing one. -/
theorem pushTextGlyph_apply (S : Surface) (cs : List Change) (g : Grapheme) :
    applyNoLog S (pushTextGlyph cs g) =
      (applyNoLog S cs).printOne (.glyph g) := by
  cases hlast : cs.getLast? with
  | none =>
    simp only [pushTextGlyph, hlast]
    rw [applyNoLog_snoc]
    rfl
  | some c =>
    cases c
    case text gs =>
      obtain ⟨l', hl⟩ := List.getLast?_eq_some_iff.mp hlast
      simp only [pushTextGlyph, hlast]
      rw [hl, List.dropLast_concat, applyNoLog_snoc, applyNoLog_snoc]
      exact printText_snoc _ gs _
    all_goals
      simp only [pushTextGlyph, hlast]
      rw [applyNoLog_snoc]
      rfl

/-- Printing one glyph with the cursor and attributes staged performs
exactly the grid write of Line::set_cell and advances the cursor by
the storage footprint. -/
theorem glyph_step (S Smid : Surface) (wr : CWrite)
    (hmx : Smid.xpos = wr.col) (hmy : Smid.ypos = wr.row)
    (hma : Smid.attributes = wr.cell.attrs) (hml : Smid.lines = S.lines)
    (hmw : Smid.width = S.width)
    (hcol : wr.col < S.width) :
    Smid.printOne (.glyph wr.cell.g) =
      { Smid with
        lines := listModify S.lines wr.row (fun l => l.setCell wr.col wr.cell)
        xpos := wr.col + effW wr.cell } := by
  simp only [Surface.printOne]
  rw [if_neg (show ¬ (Smid.width ≤ Smid.xpos) by rw [hmw, hmx]; omega)]
  rw [hmx, hmy, hma, hml]
  rfl

/-- DiffState::set_cell replayed on the surface: the staged cursor
move and attribute change (each skipped exactly when the tracking says
it is redundant) followed by the glyph perform the one grid write and
re-establish the tracking relation. -/
theorem pushCell_decode (S₀ : Surface) (st : DiffState) (ws : List CWrite)
    (wr : CWrite)
    (hcol : wr.col < S₀.width) (hrow : wr.row < S₀.height)
    (hord : ∀ a ∈ ws, wOrd a wr)
    (hinv : TrackInv (applyNoLog S₀ st.changes) st ws)
    (hw : (applyNoLog S₀ st.changes).width = S₀.width)
    (hh : (applyNoLog S₀ st.changes).height = S₀.height) :
    (applyNoLog S₀ (st.pushCell wr.col wr.row wr.cell).changes).lines =
        listModify (applyNoLog S₀ st.changes).lines wr.row
          (fun l => l.setCell wr.col wr.cell) ∧
    (applyNoLog S₀ (st.pushCell wr.col wr.row wr.cell).changes).width = S₀.width ∧
    (applyNoLog S₀ (st.pushCell wr.col wr.row wr.cell).changes).height = S₀.height ∧
    TrackInv (applyNoLog S₀ (st.pushCell wr.col wr.row wr.cell).changes)
      (st.pushCell wr.col wr.row wr.cell) (ws ++ [wr]) := by
  have hmid : ∃ cs2, (st.pushCell wr.col wr.row wr.cell).changes =
        pushTextGlyph cs2 wr.cell.g ∧
      (applyNoLog S₀ cs2).xpos = wr.col ∧
      (applyNoLog S₀ cs2).ypos = wr.row ∧
      (applyNoLog S₀ cs2).attributes = wr.cell.attrs ∧
      (applyNoLog S₀ cs2).lines = (applyNoLog S₀ st.changes).lines ∧
      (applyNoLog S₀ cs2).width = S₀.width ∧
      (applyNoLog S₀ cs2).height = S₀.height := by
    cases hws : ws.getLast? with
    | none =>
      simp only [TrackInv, hws] at hinv
      obtain ⟨hc, ha⟩ := hinv
      refine ⟨st.changes ++
        [.cursorPosition (.absolute wr.col) (.absolute wr.row)] ++
        [.allAttributes wr.cell.attrs], ?_, ?_, ?_, ?_, ?_, ?_, ?_⟩
      · simp only [DiffState.pushCell, hc, ha]
      · rw [applyNoLog_snoc, applyNoLog_snoc]
        simp only [Surface.applyChange, Surface.setCursorPos, computePositionChange]
        omega
      · rw [applyNoLog_snoc, applyNoLog_snoc]
        simp only [Surface.applyChange, Surface.setCursorPos, computePositionChange]
        omega
      · rw [applyNoLog_snoc, applyNoLog_snoc]
        rfl
      · rw [applyNoLog_snoc, applyNoLog_snoc]
        rfl
      · rw [applyNoLog_snoc, applyNoLog_snoc]
        exact hw
      · rw [applyNoLog_snoc, applyNoLog_snoc]
        exact hh
    | some wp =>
      simp only [TrackInv, hws] at hinv
      obtain ⟨hc, ha, hx, hy, hattr⟩ := hinv
      have hwpmem : wp ∈ ws := by
        obtain ⟨l', hl⟩ := List.getLast?_eq_some_iff.mp hws
        rw [hl]
        exact List.mem_append_right _ (List.mem_singleton_self wp)
      have hordwp := hord wp hwpmem
      by_cases hskip : wp.row = wr.row ∧ wp.col + wp.cell.width = wr.col
      · have hxeq : (applyNoLog S₀ st.changes).xpos = wr.col := by
          rcases hordwp with hlt | ⟨heq, hle⟩
          · omega
          · have h1 : wp.cell.width ≤ effW wp.cell := Nat.le_max_left _ _
            rw [hx]
            omega
        have hyeq : (applyNoLog S₀ st.changes).ypos = wr.row := by
          rw [hy, hskip.1]
        by_cases hattrskip : wp.cell.attrs = wr.cell.attrs
        · refine ⟨st.changes, ?_, hxeq, hyeq, ?_, rfl, hw, hh⟩
          · simp only [DiffState.pushCell, hc, ha]
            rw [if_pos hskip, if_pos hattrskip]
          · rw [hattr, hattrskip]
        · refine ⟨st.changes ++ [.allAttributes wr.cell.attrs],
            ?_, ?_, ?_, ?_, ?_, ?_, ?_⟩
          · simp only [DiffState.pushCell, hc, ha]
            rw [if_pos hskip, if_neg hattrskip]
          · rw [applyNoLog_snoc]
            exact hxeq
          · rw [applyNoLog_snoc]
            exact hyeq
          · rw [applyNoLog_snoc]
            rfl
          · rw [applyNoLog_snoc]
            rfl
          · rw [applyNoLog_snoc]
            exact hw
          · rw [applyNoLog_snoc]
            exact hh
      · by_cases hattrskip : wp.cell.attrs = wr.cell.attrs
        · refine ⟨st.changes ++
            [.cursorPosition (.absolute wr.col) (.absolute wr.row)],
            ?_, ?_, ?_, ?_, ?_, ?_, ?_⟩
          · simp only [DiffState.pushCell, hc, ha]
            rw [if_neg hskip, if_pos hattrskip]
          · rw [applyNoLog_snoc]
            simp only [Surface.applyChange, Surface.setCursorPos,
              computePositionChange]
            omega
          · rw [applyNoLog_snoc]
            simp only [Surface.applyChange, Surface.setCursorPos,
              computePositionChange]
            omega
          · rw [applyNoLog_snoc]
            show (applyNoLog S₀ st.changes).attributes = wr.cell.attrs
            rw [hattr, hattrskip]
          · rw [applyNoLog_snoc]
            rfl
          · rw [applyNoLog_snoc]
            exact hw
          · rw [applyNoLog_snoc]
            exact hh
        · refine ⟨st.changes ++
            [.cursorPosition (.absolute wr.col) (.absolute wr.row)] ++
            [.allAttributes wr.cell.attrs], ?_, ?_, ?_, ?_, ?_, ?_, ?_⟩
          · simp only [DiffState.pushCell, hc, ha]
            rw [if_neg hskip, if_neg hattrskip]
          · rw [applyNoLog_snoc, applyNoLog_snoc]
            simp only [Surface.applyChange, Surface.setCursorPos,
              computePositionChange]
            omega
          · rw [applyNoLog_snoc, applyNoLog_snoc]
            simp only [Surface.applyChange, Surface.setCursorPos,
              computePositionChange]
            omega
          · rw [applyNoLog_snoc, applyNoLog_snoc]
            rfl
          · rw [applyNoLog_snoc, applyNoLog_snoc]
            rfl
          · rw [applyNoLog_snoc, applyNoLog_snoc]
            exact hw
          · rw [applyNoLog_snoc, applyNoLog_snoc]
            exact hh
  obtain ⟨cs2, hch, hmx, hmy, hma, hml, hmw, hmh⟩ := hmid
  rw [hch, pushTextGlyph_apply]
  rw [glyph_step (applyNoLog S₀ st.changes) (applyNoLog S₀ cs2) wr hmx hmy hma hml
    (by rw [hmw, hw]) (by rw [hw]; exact hcol)]
  refine ⟨rfl, hmw, hmh, ?_⟩
  simp only [TrackInv, List.getLast?_concat]
  exact ⟨rfl, rfl, trivial, hmy, hma⟩

/-- Replaying the encoded changes of a valid write list performs
exactly the writes on the grid, preserving the dimensions. -/
theorem decode_writes (S₀ : Surface) :
    ∀ ws, writesValid S₀.width S₀.height ws →
      (applyNoLog S₀ (encodeSt DiffState.init ws).changes).lines =
          applyWritesLines S₀.lines ws ∧
      (applyNoLog S₀ (encodeSt DiffState.init ws).changes).width = S₀.width ∧
      (applyNoLog S₀ (encodeSt DiffState.init ws).changes).height = S₀.height ∧
      TrackInv (applyNoLog S₀ (encodeSt DiffState.init ws).changes)
        (encodeSt DiffState.init ws) ws := by
  intro ws
  induction ws using List.reverseRecOn with
  | nil =>
    intro _
    refine ⟨rfl, rfl, rfl, ?_⟩
    show DiffState.init.cursor = none ∧ DiffState.init.attr = none
    exact ⟨rfl, rfl⟩
  | append_singleton ws wr ih =>
    intro hvalid
    have hvalid' : writesValid S₀.width S₀.height ws := by
      obtain ⟨hb, hp⟩ := hvalid
      exact ⟨fun w hw => hb w (List.mem_append_left _ hw),
        (List.pairwise_append.mp hp).1⟩
    obtain ⟨hlines, hw, hh, hinv⟩ := ih hvalid'
    have hbw := hvalid.1 wr (List.mem_append_right _ (List.mem_singleton_self wr))
    have hord : ∀ a ∈ ws, wOrd a wr := fun a ha =>
      (List.pairwise_append.mp hvalid.2).2.2 a ha wr (List.mem_singleton_self wr)
    rw [encodeSt_snoc, applyWritesLines_snoc]
    obtain ⟨h1, h2, h3, h4⟩ := pushCell_decode S₀ (encodeSt DiffState.init ws) ws wr
      hbw.1 hbw.2 hord hinv hw hh
    exact ⟨by rw [h1, hlines], h2, h3, h4⟩

/-! ## Lemmas for the diff round-trip: the emitted write list is
valid -/

/-- Every write decision comes from a target cell at its own
position. -/
theorem rowWritesGo_sublist (x otherX : Nat) :
    ∀ (otherCells cells : List (Nat × Cell)),
      (rowWritesGo x otherX cells otherCells).Sublist
        (otherCells.map (fun q => (x + (q.1 - otherX), q.2))) := by
  intro otherCells
  induction otherCells with
  | nil =>
    intro cells
    rw [rowWritesGo_nil]
    simp
  | cons q rest ih =>
    obtain ⟨oi, oc⟩ := q
    intro cells
    rcases hsk : seekComparison cells x (oi - otherX) with ⟨rem, comp⟩
    cases comp with
    | some cc =>
      rw [rowWritesGo_cons_some x otherX oi oc cc rest cells rem hsk]
      simp only [List.map_cons]
      by_cases hcc : cc = oc
      · rw [if_pos hcc, List.nil_append]
        exact (ih rem).cons _
      · rw [if_neg hcc, List.singleton_append]
        exact (ih rem).cons₂ _
    | none =>
      rw [rowWritesGo_cons_none x otherX oi oc rest cells rem hsk]
      simp only [List.map_cons]
      exact (ih rem).cons₂ _

theorem map_starts_id (l : List (Nat × Cell)) :
    l.map (fun q => (0 + (q.1 - 0), q.2)) = l := by
  simp

theorem rowWrites_sublist (line other : Line) (W : Nat) :
    (rowWrites line other W).Sublist
      (other.visibleCells.takeWhile (fun p => p.1 < W)) := by
  have h := rowWritesGo_sublist 0 0
    (other.visibleCells.takeWhile (fun p => p.1 < W))
    (line.visibleCells.takeWhile (fun p => p.1 < W))
  rw [map_starts_id] at h
  exact h

theorem takeWhile_all {α : Type} (p : α → Bool) (u : List α)
    (h : ∀ x ∈ u, p x = true) : u.takeWhile p = u := by
  have h2 := takeWhile_append_all p u [] h
  simpa using h2

theorem takeWhile_idem {α : Type} (p : α → Bool) (l : List α) :
    (l.takeWhile p).takeWhile p = l.takeWhile p := by
  apply takeWhile_all
  intro x hx
  exact List.mem_takeWhile_imp hx

/-- The visible cells of a well-formed line are the cell starts
strictly left of the width. -/
theorem visibleCells_wf (l : Line) (cs : List Cell) (W : Nat)
    (h : l.slots = (blocksOf cs).take W) :
    l.visibleCells = (cellStarts 0 cs).takeWhile (fun p => p.1 < W) := by
  rw [Line.visibleCells, h, visCellsAux_blocks]
  simp only [Nat.zero_add]

theorem enumFrom_pairwise {α : Type} (l : List α) :
    ∀ n, (List.enumFrom n l).Pairwise (fun p q => p.1 < q.1) := by
  induction l with
  | nil => intro n; simp
  | cons a t ih =>
    intro n
    rw [show List.enumFrom n (a :: t) = (n, a) :: List.enumFrom (n + 1) t from rfl,
      List.pairwise_cons]
    refine ⟨?_, ih (n + 1)⟩
    intro q hq
    obtain ⟨i, x⟩ := q
    exact Nat.lt_of_lt_of_le (Nat.lt_succ_self n) (List.mem_enumFrom hq).1

theorem zip_pairwise_fst {α β : Type} (R : α → α → Prop) :
    ∀ (l1 : List α) (l2 : List β), l1.Pairwise R →
      (l1.zip l2).Pairwise (fun p q => R p.1 q.1) := by
  intro l1
  induction l1 with
  | nil => intro l2 _; simp
  | cons a t ih =>
    intro l2 hp
    cases l2 with
    | nil => simp
    | cons b t2 =>
      rw [List.zip_cons_cons, List.pairwise_cons]
      rw [List.pairwise_cons] at hp
      refine ⟨?_, ih t2 hp.2⟩
      intro q hq
      obtain ⟨x, y⟩ := q
      exact hp.1 x (List.of_mem_zip hq).1

/-- The write list emitted by the diff of well-formed surfaces is
valid: in bounds and ordered with gaps covering each write's storage
footprint. -/
theorem allWrites_valid (A B : Surface) (hwfB : Surface.wf B) :
    writesValid A.width A.height (allWrites A B) := by
  constructor
  · intro w hw
    rw [allWrites, List.mem_flatten] at hw
    obtain ⟨l, hl, hwl⟩ := hw
    rw [List.mem_map] at hl
    obtain ⟨⟨⟨r, la⟩, lb⟩, hpr, rfl⟩ := hl
    rw [List.mem_map] at hwl
    obtain ⟨q, hq, rfl⟩ := hwl
    constructor
    · show q.1 < A.width
      have hmem := (rowWrites_sublist la lb A.width).subset hq
      have := List.mem_takeWhile_imp hmem
      simpa using this
    · show r < A.height
      have h1 := (List.of_mem_zip hpr).1
      have := List.mem_takeWhile_imp h1
      simpa using this
  · rw [allWrites, List.pairwise_flatten]
    constructor
    · intro l hl
      rw [List.mem_map] at hl
      obtain ⟨⟨⟨r, la⟩, lb⟩, hpr, rfl⟩ := hl
      rw [List.pairwise_map]
      have hlb : lb ∈ B.lines := (List.of_mem_zip hpr).2
      obtain ⟨cs, hslots, hlen⟩ := hwfB.2 lb hlb
      have h0 : lb.visibleCells.Pairwise (fun a b => a.1 + effW a.2 ≤ b.1) := by
        rw [visibleCells_wf lb cs B.width hslots]
        exact List.Pairwise.sublist (List.takeWhile_sublist _)
          (cellStarts_pairwise_gap 0 cs)
      have hgap := List.Pairwise.sublist (rowWrites_sublist la lb A.width)
        (List.Pairwise.sublist (List.takeWhile_sublist _) h0)
      exact hgap.imp (fun hab => Or.inr ⟨rfl, hab⟩)
    · rw [List.pairwise_map]
      have hpw : (((A.lines.enum).takeWhile
          (fun p => p.1 < A.height)).zip B.lines).Pairwise
          (fun p q => p.1.1 < q.1.1) := by
        exact zip_pairwise_fst (fun (a b : Nat × Line) => a.1 < b.1) _ B.lines
          (List.Pairwise.sublist (List.takeWhile_sublist _)
            (enumFrom_pairwise A.lines 0))
      refine hpw.imp ?_
      intro p q hpq x hx y hy
      rw [List.mem_map] at hx hy
      obtain ⟨qx, _, rfl⟩ := hx
      obtain ⟨qy, _, rfl⟩ := hy
      exact Or.inl hpq

/-! ## Lemmas for the diff round-trip: assembling the rows -/

theorem listModify_id {α : Type} : ∀ (l : List α) (i : Nat),
    listModify l i (fun x => x) = l := by
  intro l
  induction l with
  | nil => intro i; rfl
  | cons x xs ih =>
    intro i
    cases i with
    | zero => rfl
    | succ n => rw [listModify, ih]

theorem listModify_listModify {α : Type} (f g : α → α) :
    ∀ (l : List α) (i : Nat),
      listModify (listModify l i f) i g = listModify l i (fun x => g (f x)) := by
  intro l
  induction l with
  | nil => intro i; rfl
  | cons x xs ih =>
    intro i
    cases i with
    | zero => rfl
    | succ n =>
      show x :: listModify (listModify xs n f) n g =
        x :: listModify xs n (fun x => g (f x))
      rw [ih]

theorem listModify_drop {α : Type} (F : α → α) :
    ∀ (ln : List α) (k : Nat) (a : α) (rest : List α), ln.drop k = a :: rest →
      listModify ln k F = ln.take k ++ F a :: rest := by
  intro ln
  induction ln with
  | nil =>
    intro k a rest h
    simp at h
  | cons x xs ih =>
    intro k a rest h
    cases k with
    | zero =>
      simp only [List.drop_zero] at h
      cases h
      rfl
    | succ n =>
      simp only [List.drop_succ_cons] at h
      show x :: listModify xs n F = x :: (xs.take n ++ F a :: rest)
      rw [ih n a rest h]

theorem applyWritesLines_append (ln : List Line) (u v : List CWrite) :
    applyWritesLines ln (u ++ v) =
      applyWritesLines (applyWritesLines ln u) v := by
  simp [applyWritesLines, List.foldl_append]

/-- The tagged writes of one row modify exactly that row, applying all
cell writes to it. -/
theorem applyWritesLines_row (k : Nat) :
    ∀ (qs : List (Nat × Cell)) (ln : List Line),
      applyWritesLines ln (qs.map (fun q => CWrite.mk q.1 k q.2)) =
        listModify ln k (fun l => qs.foldl (fun l q => l.setCell q.1 q.2) l) := by
  intro qs
  induction qs with
  | nil =>
    intro ln
    show ln = listModify ln k (fun x => x)
    rw [listModify_id]
  | cons q qs ih =>
    intro ln
    simp only [List.map_cons, applyWritesLines, List.foldl_cons]
    rw [show List.foldl
        (fun ls w => listModify ls w.row (fun l => l.setCell w.col w.cell))
        (listModify ln k (fun l => l.setCell q.1 q.2))
        (qs.map (fun q => CWrite.mk q.1 k q.2)) =
      applyWritesLines (listModify ln k (fun l => l.setCell q.1 q.2))
        (qs.map (fun q => CWrite.mk q.1 k q.2)) from rfl]
    rw [ih, listModify_listModify]

theorem foldl_setCell_slots :
    ∀ (qs : List (Nat × Cell)) (l : Line),
      (qs.foldl (fun l q => l.setCell q.1 q.2) l).slots =
        applyRowWrites l.slots qs := by
  intro qs
  induction qs with
  | nil => intro l; rfl
  | cons q qs ih =>
    intro l
    simp only [List.foldl_cons]
    rw [ih]
    rfl

/-- One row of the diff round-trip: applying the row's write decisions
to the old well-formed line produces the target line's storage. -/
theorem row_transform (W : Nat) (la lb : Line) (csA csB : List Cell)
    (hA : la.slots = (blocksOf csA).take W) (hlA : W ≤ (blocksOf csA).length)
    (hB : lb.slots = (blocksOf csB).take W) (hlB : W ≤ (blocksOf csB).length) :
    ((rowWrites la lb W).foldl (fun l q => l.setCell q.1 q.2) la).slots =
      lb.slots := by
  rw [foldl_setCell_slots]
  rw [rowWrites, visibleCells_wf la csA W hA, visibleCells_wf lb csB W hB,
    takeWhile_idem, takeWhile_idem, hA, hB]
  have h0 := rowAux W csA hlA csB [] 0 0 (blocksOf csA) rfl
    (by omega) (Nat.le_refl 0) (Or.inl ⟨[], csA, rfl, rfl, rfl⟩)
  simp only [blocksOf_nil, List.nil_append, dropWhile_lt_zero] at h0
  exact h0

/-- The row recursion of the diff round-trip: applying the tagged
writes of all remaining row pairs replaces the suffix with the target
rows. -/
theorem grid_rows (W : Nat) :
    ∀ (As Bs : List Line) (k : Nat) (ln : List Line),
      ln.length = k + As.length →
      ln.drop k = As →
      As.length = Bs.length →
      (∀ l ∈ As, ∃ cs, l.slots = (blocksOf cs).take W ∧
        W ≤ (blocksOf cs).length) →
      (∀ l ∈ Bs, ∃ cs, l.slots = (blocksOf cs).take W ∧
        W ≤ (blocksOf cs).length) →
      (applyWritesLines ln (((List.enumFrom k As).zip Bs).map
        (fun p => (rowWrites p.1.2 p.2 W).map
          (fun q => CWrite.mk q.1 p.1.1 q.2))).flatten).map (fun l => l.slots)
        = (ln.take k).map (fun l => l.slots) ++ Bs.map (fun l => l.slots) := by
  intro As
  induction As with
  | nil =>
    intro Bs k ln hlen hdrop hBlen _ _
    have hBs : Bs = [] := List.length_eq_zero.mp hBlen.symm
    subst hBs
    simp only [List.length_nil, Nat.add_zero] at hlen
    show ln.map (fun l => l.slots) =
      (ln.take k).map (fun l => l.slots) ++ []
    rw [List.take_of_length_le (by omega), List.append_nil]
  | cons la As' ih =>
    intro Bs k ln hlen hdrop hBlen hwfAs hwfBs
    cases Bs with
    | nil => simp at hBlen
    | cons lb Bs' =>
      simp only [show List.enumFrom k (la :: As') =
          (k, la) :: List.enumFrom (k + 1) As' from rfl,
        List.zip_cons_cons, List.map_cons, List.flatten_cons]
      rw [applyWritesLines_append, applyWritesLines_row k (rowWrites la lb W) ln]
      rw [listModify_drop _ ln k la As' hdrop]
      obtain ⟨csA, hA, hlA⟩ := hwfAs la (List.mem_cons_self _ _)
      obtain ⟨csB, hB, hlB⟩ := hwfBs lb (List.mem_cons_self _ _)
      have hslots : ((rowWrites la lb W).foldl
          (fun l q => l.setCell q.1 q.2) la).slots = lb.slots :=
        row_transform W la lb csA csB hA hlA hB hlB
      have htake : (ln.take k).length = k := by
        rw [List.length_take]
        omega
      have hlen' : (ln.take k ++
          (rowWrites la lb W).foldl (fun l q => l.setCell q.1 q.2) la ::
            As').length = (k + 1) + As'.length := by
        simp only [List.length_append, List.length_cons, htake]
        omega
      have hdrop' : (ln.take k ++
          (rowWrites la lb W).foldl (fun l q => l.setCell q.1 q.2) la ::
            As').drop (k + 1) = As' := by
        rw [List.drop_append_eq_append_drop, htake,
          List.drop_of_length_le (by omega)]
        simp only [List.nil_append]
        have h1 : k + 1 - k = 1 := by omega
        rw [h1, List.drop_succ_cons, List.drop_zero]
      have ih' := ih Bs' (k + 1) _ hlen' hdrop' (by simpa using hBlen)
        (fun l hl => hwfAs l (List.mem_cons_of_mem _ hl))
        (fun l hl => hwfBs l (List.mem_cons_of_mem _ hl))
      rw [ih']
      have htk : (ln.take k ++
          (rowWrites la lb W).foldl (fun l q => l.setCell q.1 q.2) la ::
            As').take (k + 1) = ln.take k ++
          [(rowWrites la lb W).foldl (fun l q => l.setCell q.1 q.2) la] := by
        rw [List.take_append_eq_append_take, htake,
          List.take_of_length_le (show (ln.take k).length ≤ k + 1 by omega)]
        have h1 : k + 1 - k = 1 := by omega
        rw [h1]
        rfl
      rw [htk]
      simp only [List.map_append, List.map_cons, List.map_nil, hslots,
        List.append_assoc, List.singleton_append]

/-- C1: for every two well-formed Surface grid states A and B of equal
width and height, applying the Change sequence returned by
diff_screens(A, B) to A via add_changes makes A's cell grid identical
to B's, byte-for-byte in cell content and attributes (well-formed: each
line is the width-truncated physical storage of a cell sequence). -/
theorem c1_diff_roundtrip (A B : Surface)
    (hwfA : Surface.wf A) (hwfB : Surface.wf B)
    (hW : A.width = B.width) (hH : A.height = B.height) :
    ((A.addChanges (A.diffScreens B)).2).lines.map (fun l => l.slots) =
      B.lines.map (fun l => l.slots) := by
  show (applyNoLog A (A.diffScreens B)).lines.map (fun l => l.slots) =
    B.lines.map (fun l => l.slots)
  rw [diffScreens_writes,
    (decode_writes A (allWrites A B) (allWrites_valid A B hwfB)).1]
  obtain ⟨hlenA, hrowsA⟩ := hwfA
  obtain ⟨hlenB, hrowsB⟩ := hwfB
  have htw : (A.lines.enum).takeWhile (fun p => decide (p.1 < A.height)) =
      A.lines.enum := by
    apply takeWhile_all
    intro x hx
    obtain ⟨i, a⟩ := x
    have hmem : (i, a) ∈ List.enumFrom 0 A.lines := hx
    have hb := (List.mem_enumFrom hmem).2.1
    simp only [decide_eq_true_eq]
    omega
  simp only [allWrites, htw]
  have hgr := grid_rows A.width A.lines B.lines 0 A.lines (by omega) rfl
    (by omega) hrowsA (fun l hl => by rw [hW]; exact hrowsB l hl)
  rw [show A.lines.enum = List.enumFrom 0 A.lines from rfl, hgr]
  simp

/-- Witness: the diff round-trip at a concrete pair of 2x1 surfaces,
the source row two narrow cells, the target row one wide cell. -/
theorem c1_diff_roundtrip_witness :
    c1A.wf ∧ c1B.wf ∧ c1A.width = c1B.width ∧ c1A.height = c1B.height ∧
    ((c1A.addChanges (c1A.diffScreens c1B)).2).lines.map (fun l => l.slots) =
      c1B.lines.map (fun l => l.slots) := by
  have hwfA : c1A.wf := by
    refine ⟨rfl, ?_⟩
    intro l hl
    rw [show c1A.lines =
      [⟨[Slot.cell ⟨1, ⟨0, 0, 0⟩⟩, Slot.cell ⟨1, ⟨0, 0, 0⟩⟩], 0⟩] from rfl,
      List.mem_singleton] at hl
    subst hl
    exact ⟨[⟨1, ⟨0, 0, 0⟩⟩, ⟨1, ⟨0, 0, 0⟩⟩], by decide, by decide⟩
  have hwfB : c1B.wf := by
    refine ⟨rfl, ?_⟩
    intro l hl
    rw [show c1B.lines =
      [⟨[Slot.cell ⟨2, ⟨1, 2, 3⟩⟩, Slot.pad], 0⟩] from rfl,
      List.mem_singleton] at hl
    subst hl
    exact ⟨[⟨2, ⟨1, 2, 3⟩⟩], by decide, by decide⟩
  exact ⟨hwfA, hwfB, rfl, rfl, c1_diff_roundtrip c1A c1B hwfA hwfB rfl rfl⟩

end WezSpec
